import Mathlib

/-!
# Verification of the Google Sheet / Google Doc sync reconciler

Shallow embedding of the chunk-sync logic of this repository:

* `src/src/app/api/sync-google-sheet/route.ts` (`POST`, the sheet sync),
* the Google-Doc sync handler (`POST`) with the same diff algorithm,
* the sheet-row flattening step and the SHA-256 fingerprints.

The SHA-256 digest is modelled as an abstract function `hash : String → String`
passed as a parameter; the embedding vector type is an abstract parameter `E`
(`embedText` is an external call whose outcomes are part of the environment).
Database rows are modelled as lists; the `id UUID PRIMARY KEY` column is
modelled as a `Nat` assigned from a fresh counter.  External calls
(`readGoogleSheet`, `readGoogleDoc`, `embedText`, the Supabase queries) are
modelled by an environment record holding each call's outcome.
-/

namespace SheetSync

/-- A freshly fetched row/chunk together with its fingerprint: the
`{ hash, content }` records pushed into `rowData` (sheet sync, route.ts
lines 109–133) resp. `chunkData` (doc sync). -/
structure RowData where
  hash : String
  content : String
deriving DecidableEq, Repr

/-- One persisted row of the `chunks` table (essential-migration.sql): the
columns the sync code touches. -/
structure StoredChunk (E : Type) where
  id : Nat
  phone_number : String
  source : String
  content : String
  embedding : E
  row_hash : String
deriving DecidableEq, Repr

/-- One row of `google_sheet_mappings` (the part the sync code touches). -/
structure SheetMapping where
  phone_number : String
  last_synced_at : Option Nat
  last_row_count : Nat
deriving DecidableEq, Repr

/-- One row of `google_doc_mappings` (the part the sync code touches). -/
structure DocMapping where
  phone_number : String
  last_synced_at : Option Nat
  last_chunk_count : Nat
deriving DecidableEq, Repr

/-- The database state the two sync handlers read and write. `nextId` models
the primary-key generator for `chunks.id`. -/
structure Store (E : Type) where
  chunks : List (StoredChunk E)
  sheetMappings : List SheetMapping
  docMappings : List DocMapping
  nextId : Nat
deriving DecidableEq, Repr

/-- `select id, row_hash, content from chunks where phone_number = … and
source = …` (route.ts lines 140–144). -/
def selectChunks (st : Store E) (phone source : String) : List (StoredChunk E) :=
  st.chunks.filter (fun c => c.phone_number == phone && c.source == source)

/-- Builds the freshly inserted chunk rows: contents/hashes from the row data,
embeddings from the provider, ids from the fresh-id counter (route.ts lines
263–269). -/
def freshChunks (phone source : String) : Nat → List (RowData × E) → List (StoredChunk E)
  | _, [] => []
  | n, (r, e) :: rest =>
    { id := n, phone_number := phone, source := source, content := r.content,
      embedding := e, row_hash := r.hash } :: freshChunks phone source (n + 1) rest

/-- `supabase.from("chunks").insert(...)` (route.ts lines 272–274). -/
def insertChunks (st : Store E) (phone source : String) (rows : List (RowData × E)) : Store E :=
  { st with chunks := st.chunks ++ freshChunks phone source st.nextId rows,
            nextId := st.nextId + rows.length }

/-- `supabase.from("chunks").delete().in("id", deleteIds)` (route.ts lines
184–187). -/
def deleteChunks (st : Store E) (ids : List Nat) : Store E :=
  { st with chunks := st.chunks.filter (fun c => !(ids.contains c.id)) }

/-- `supabase.from("chunks").update({content, embedding}).eq("id", id)`
(route.ts lines 215–221). -/
def updateChunkById (st : Store E) (i : Nat) (content : String) (e : E) : Store E :=
  { st with chunks := st.chunks.map fun c =>
      if c.id == i then { c with content := content, embedding := e } else c }

/-- `supabase.from("google_sheet_mappings").update({last_synced_at,
last_row_count}).eq("phone_number", …)` (route.ts lines 304–310). -/
def touchSheetMapping (st : Store E) (phone : String) (now cnt : Nat) : Store E :=
  { st with sheetMappings := st.sheetMappings.map fun m =>
      if m.phone_number == phone
      then { m with last_synced_at := some now, last_row_count := cnt } else m }

/-- `supabase.from("google_doc_mappings").update({last_synced_at,
last_chunk_count}).eq("phone_number", …)` (doc sync, step 🔟). -/
def touchDocMapping (st : Store E) (phone : String) (now cnt : Nat) : Store E :=
  { st with docMappings := st.docMappings.map fun m =>
      if m.phone_number == phone
      then { m with last_synced_at := some now, last_chunk_count := cnt } else m }

/-! ## The reconciler (step 5️⃣ of the sheet sync, step 6️⃣ of the doc sync) -/

/-- `new Map(existingChunks.map(c => [c.row_hash, c])).get(h)`: a JS `Map`
built from an entry list keeps the **last** entry for a duplicated key. -/
def mapGetLast (existing : List (StoredChunk E)) (h : String) : Option (StoredChunk E) :=
  existing.foldl (fun acc c => if c.row_hash == h then some c else acc) none

/-- `currentSheetHashes` as a list (membership models the JS `Set`). -/
def currentHashes (rows : List RowData) : List String :=
  rows.map (·.hash)

/-- `existingHashes` as a list (membership models the JS `Set`). -/
def existingHashes (existing : List (StoredChunk E)) : List String :=
  existing.map (·.row_hash)

/-- `const toAdd = rowData.filter(row => !existingHashes.has(row.hash))`
(route.ts line 167). -/
def toAdd (rows : List RowData) (existing : List (StoredChunk E)) : List RowData :=
  rows.filter (fun r => !((existingHashes existing).contains r.hash))

/-- `const toDelete = existingChunks.filter(chunk =>
!currentSheetHashes.has(chunk.row_hash))` (route.ts line 168). -/
def toDelete (rows : List RowData) (existing : List (StoredChunk E)) : List (StoredChunk E) :=
  existing.filter (fun c => !((currentHashes rows).contains c.row_hash))

/-- `const toUpdate = rowData.filter(row => { const existing =
existingHashToChunk.get(row.hash); return existing && existing.content !==
row.content; })` (route.ts lines 169–172). -/
def toUpdate (rows : List RowData) (existing : List (StoredChunk E)) : List RowData :=
  rows.filter (fun r =>
    match mapGetLast existing r.hash with
    | some c => c.content != r.content
    | none => false)

/-! ## Sheet-row flattening (step 3️⃣ of the sheet sync, route.ts lines 106–133)

JS strings are modelled through their character lists; `String.prototype.trim`
is modelled over the common whitespace characters. -/

/-- The whitespace predicate behind JS `trim` (common whitespace). -/
def isWsChar (c : Char) : Bool :=
  c == ' ' || c == '\t' || c == '\n' || c == '\r'

/-- Removes trailing whitespace from a character list. -/
def dropTrailingWs : List Char → List Char
  | [] => []
  | c :: cs =>
    if (dropTrailingWs cs).isEmpty && isWsChar c then [] else c :: dropTrailingWs cs

/-- Removes leading and trailing whitespace. -/
def trimChars (l : List Char) : List Char :=
  dropTrailingWs (l.dropWhile isWsChar)

/-- `s.trim()` on a JS string. -/
def jsTrim (s : String) : String :=
  String.mk (trimChars s.data)

/-- `Array.prototype.join(" | ")` at the character-list level. -/
def joinCells : List (List Char) → List Char
  | [] => []
  | x :: xs => if xs.isEmpty then x else x ++ (' ' :: '|' :: ' ' :: joinCells xs)

/-- `row.map(cell => (cell || "").toString().trim()).filter(cell =>
cell.length > 0).join(" | ")` (route.ts lines 116–119): each cell trimmed,
empty cells dropped, the rest joined with `" | "`. -/
def flattenRow (row : List String) : String :=
  String.mk (joinCells (((row.map (fun c => trimChars c.data)).filter (fun l => !l.isEmpty))))

/-- Steps 3️⃣ of the sheet sync (route.ts lines 106–133): drop the header row,
flatten each remaining row, skip rows whose flattening is blank
(`if (rowString.trim())`), and fingerprint the kept rows.  The `forEach`/push
loop is rendered as `filterMap`. -/
def rowDataOf (hash : String → String) (values : List (List String)) : List RowData :=
  (values.drop 1).filterMap fun row =>
    let s := flattenRow row
    if jsTrim s != "" then some { hash := hash s, content := s } else none

/-! ## The fragmenter `chunkText` -/

/-- Recursion core of `chunkText`, with fuel (the fuel is the text length, and
each step consumes at least one character, so the fallback branch is never
taken by `chunkText`). -/
def chunkListGo (S O : Nat) : Nat → List Char → List (List Char)
  | 0, _ => []
  | n + 1, l =>
    if l.isEmpty then []
    else if l.length ≤ S then [l]
    else l.take S :: chunkListGo S O n (l.drop (S - O))

/-- Modelled from the spec: the source file `src/lib/chunk.ts` defining
`chunkText` is not in the source tree (only its call site
`chunkText(docText, 1600, 200)` in the doc sync is).  Per the spec's
Fragmenter contract: an ordered finite sequence of substrings, consecutive
substrings overlapping by `O` characters, no substring exceeding `S`, only
the final chunk shorter than `S`, empty input giving the empty sequence, and
a configuration error when `O >= S`. -/
def chunkText (text : String) (S O : Nat) : Except String (List String) :=
  if O < S then
    Except.ok ((chunkListGo S O text.data.length text.data).map String.mk)
  else
    Except.error "chunkText: overlap must be smaller than chunk size"

/-! ## The sheet sync handler (route.ts, `POST`)

The handler is modelled from the `readGoogleSheet` call on (the earlier
request-validation branches return 400/404 before any effect).  Every external
call's outcome is a field of the environment: `fetch` is the
`readGoogleSheet` result (`Except` error code), `embed` the `embedText`
outcome per content, and the `Bool`s the Supabase call outcomes (`updateOk k`
/ `insertOk k` is the outcome of the k-th update / insert call). -/

structure SheetEnv (E : Type) where
  fetch : Except Nat (List (List String))
  selectOk : Bool
  deleteOk : Bool
  embed : String → Except String E
  updateOk : Nat → Bool
  insertOk : Nat → Bool
  metaOk : Bool
  now : Nat

/-- The JSON response of the sheet sync: `{totalRows, newRows, deletedRows,
lastSyncedAt}` on success, `{error}` with an HTTP status on failure. -/
inductive SheetSyncResult where
  | success (totalRows newRows deletedRows : Nat) (lastSyncedAt : Nat)
  | failure (status : Nat) (error : String)
deriving DecidableEq, Repr

/-- Intermediate result of an apply-phase step: either the store after the
step, or the error response together with the store at the failure point. -/
abbrev StepResult (E : Type) :=
  Except ((Nat × String) × Store E) (Store E)

/-- Step 6️⃣, delete old chunks (route.ts lines 180–206): skipped when
`toDelete` is empty. -/
def sheetDeleteApply (st : Store E) (tDel : List (StoredChunk E)) : Store E :=
  if tDel.isEmpty then st else deleteChunks st (tDel.map (·.id))

def sheetDeletePhase (deleteOk : Bool) (tDel : List (StoredChunk E)) (st : Store E) :
    StepResult E :=
  if tDel.isEmpty then .ok st
  else if deleteOk then .ok (sheetDeleteApply st tDel)
  else .error ((500, "Failed to delete old chunks"), st)

/-- Step 7️⃣, update changed chunks (route.ts lines 208–241): for each
`toUpdate` row, look up the existing chunk in the hash map, request a fresh
embedding, and rewrite content and embedding in place.  A thrown `embedText`
error (or the `undefined` dereference when the map lookup misses) is caught by
the `catch` and reported as "Failed to update chunks"; a Supabase update error
as "Failed to update chunk". -/
def sheetUpdateGo (embed : String → Except String E) (updateOk : Nat → Bool)
    (existing : List (StoredChunk E)) :
    List RowData → Nat → Store E → StepResult E
  | [], _, st => .ok st
  | r :: rest, k, st =>
    match embed r.content with
    | .error _ => .error ((500, "Failed to update chunks"), st)
    | .ok e =>
      match mapGetLast existing r.hash with
      | none => .error ((500, "Failed to update chunks"), st)
      | some c =>
        if updateOk k then sheetUpdateGo embed updateOk existing rest (k + 1)
          (updateChunkById st c.id r.content e)
        else .error ((500, "Failed to update chunk"), st)

/-- `BATCH_SIZE = 50` grouping of `toAdd` (route.ts lines 247–253), with the
list length as fuel (each step consumes at least one element). -/
def batchesGo : Nat → List RowData → List (List RowData)
  | 0, _ => []
  | n + 1, l => if l.isEmpty then [] else l.take 50 :: batchesGo n (l.drop 50)

def sheetBatches (l : List RowData) : List (List RowData) :=
  batchesGo l.length l

/-- `Promise.all(batch.map(row => embedText(row.content)))`: succeeds with all
embeddings or rejects as soon as one call fails. -/
def embedAll (embed : String → Except String E) : List RowData → Except String (List E)
  | [] => .ok []
  | r :: rest =>
    match embed r.content with
    | .error m => .error m
    | .ok e =>
      match embedAll embed rest with
      | .error m => .error m
      | .ok es => .ok (e :: es)

/-- Step 8️⃣, add new chunks batch by batch (route.ts lines 244–300): embed the
whole batch, then insert it.  A rejected `Promise.all` is caught and reported
as "Failed to add new chunks"; a Supabase insert error as "Failed to save
chunks". -/
def sheetAddGo (embed : String → Except String E) (insertOk : Nat → Bool) (phone : String) :
    List (List RowData) → Nat → Store E → StepResult E
  | [], _, st => .ok st
  | b :: rest, k, st =>
    match embedAll embed b with
    | .error _ => .error ((500, "Failed to add new chunks"), st)
    | .ok es =>
      if insertOk k then
        sheetAddGo embed insertOk phone rest (k + 1)
          (insertChunks st phone "google_sheet" (b.zip es))
      else .error ((500, "Failed to save chunks"), st)

/-- The apply phase of the sheet sync: delete, then update, then add. -/
def applySheet (env : SheetEnv E) (phone : String) (rows : List RowData)
    (existing : List (StoredChunk E)) (st : Store E) : StepResult E :=
  match sheetDeletePhase env.deleteOk (toDelete rows existing) st with
  | .error e => .error e
  | .ok st1 =>
    match sheetUpdateGo env.embed env.updateOk existing (toUpdate rows existing) 0 st1 with
    | .error e => .error e
    | .ok st2 => sheetAddGo env.embed env.insertOk phone (sheetBatches (toAdd rows existing)) 0 st2

/-- The sheet sync `POST` handler (route.ts lines 65–327), from the
`readGoogleSheet` call on. -/
def syncSheetPOST (hash : String → String) (phone : String) (env : SheetEnv E)
    (st : Store E) : SheetSyncResult × Store E :=
  match env.fetch with
  | .error c =>
    if c == 403 then
      (.failure 403 "Google Sheet access denied. Please share the sheet with the service account email.", st)
    else if c == 404 then
      (.failure 404 "Google Sheet not found. Please check the sheet URL.", st)
    else (.failure 500 "Failed to read Google Sheet", st)
  | .ok values =>
    if values.length ≤ 1 then (.success 0 0 0 env.now, st)
    else
      let rows := rowDataOf hash values
      if env.selectOk then
        let existing := selectChunks st phone "google_sheet"
        match applySheet env phone rows existing st with
        | .error (e, stF) => (.failure e.1 e.2, stF)
        | .ok st3 =>
          let st4 := if env.metaOk then touchSheetMapping st3 phone env.now rows.length else st3
          (.success rows.length (toAdd rows existing).length
            (toDelete rows existing).length env.now, st4)
      else (.failure 500 "Failed to fetch existing chunks", st)

/-! ## The doc sync handler (`POST` of the Google-Doc sync route)

Same environment idea; `fetch` is the `readGoogleDoc` outcome. -/

structure DocEnv (E : Type) where
  fetch : Except Nat String
  selectOk : Bool
  deleteOk : Bool
  embed : String → Except String E
  updateOk : Nat → Bool
  insertOk : Nat → Bool
  metaOk : Bool
  now : Nat

/-- The JSON response of the doc sync.  The zero-content early return carries
no `updatedChunks` field in JS; it is rendered here with `updatedChunks = 0`
and is distinguished by its message. -/
inductive DocSyncResult where
  | success (totalChunks newChunks deletedChunks updatedChunks : Nat) (message : String)
  | failure (status : Nat) (error : String)
deriving DecidableEq, Repr

/-- Step 8️⃣ of the doc sync: add new chunks one by one (embed, then insert).
A thrown `embedText` error is caught as "Database error during addition"; an
insert error is reported as "Failed to insert new chunk". -/
def docAddGo (embed : String → Except String E) (insertOk : Nat → Bool) (phone : String) :
    List RowData → Nat → Store E → StepResult E
  | [], _, st => .ok st
  | r :: rest, k, st =>
    match embed r.content with
    | .error _ => .error ((500, "Database error during addition"), st)
    | .ok e =>
      if insertOk k then
        docAddGo embed insertOk phone rest (k + 1) (insertChunks st phone "google_doc" [(r, e)])
      else .error ((500, "Failed to insert new chunk"), st)

/-- Step 9️⃣ of the doc sync: update changed chunks (embed first, then look the
chunk up; a missed lookup is skipped without incrementing `updated`).  The
`Nat` threaded through is the `updated` counter. -/
def docUpdateGo (embed : String → Except String E) (updateOk : Nat → Bool)
    (existing : List (StoredChunk E)) :
    List RowData → Nat → Store E × Nat → Except ((Nat × String) × Store E) (Store E × Nat)
  | [], _, su => .ok su
  | r :: rest, k, (st, u) =>
    match embed r.content with
    | .error _ => .error ((500, "Database error during update"), st)
    | .ok e =>
      match mapGetLast existing r.hash with
      | none => docUpdateGo embed updateOk existing rest k (st, u)
      | some c =>
        if updateOk k then
          docUpdateGo embed updateOk existing rest (k + 1)
            (updateChunkById st c.id r.content e, u + 1)
        else .error ((500, "Failed to update chunk"), st)

/-- The apply phase of the doc sync: delete, then add chunk by chunk, then
update (threading the `updated` counter). -/
def applyDoc (env : DocEnv E) (phone : String) (chunkData : List RowData)
    (existing : List (StoredChunk E)) (st : Store E) :
    Except ((Nat × String) × Store E) (Store E × Nat) :=
  match sheetDeletePhase env.deleteOk (toDelete chunkData existing) st with
  | .error e => .error e
  | .ok st1 =>
    match docAddGo env.embed env.insertOk phone (toAdd chunkData existing) 0 st1 with
    | .error e => .error e
    | .ok st2 =>
      docUpdateGo env.embed env.updateOk existing (toUpdate chunkData existing) 0 (st2, 0)

/-- The doc sync `POST` handler, from the `readGoogleDoc` call on. -/
def syncDocPOST (hash : String → String) (phone : String) (env : DocEnv E)
    (st : Store E) : DocSyncResult × Store E :=
  match env.fetch with
  | .error c =>
    if c == 403 then
      (.failure 403 "Google Doc access denied. Please share the doc with the service account email.", st)
    else if c == 404 then
      (.failure 404 "Google Doc not found. Please check the doc URL.", st)
    else (.failure 500 "Failed to read Google Doc", st)
  | .ok text =>
    if text == "" then (.success 0 0 0 0 "No content found in the document", st)
    else
      match chunkText text 1600 200 with
      | .error m => (.failure 500 ("Unexpected error: " ++ m), st)
      | .ok chunks =>
        let chunkData := chunks.map fun c => RowData.mk (hash c) c
        if env.selectOk then
          let existing := selectChunks st phone "google_doc"
          match applyDoc env phone chunkData existing st with
          | .error (e, stF) => (.failure e.1 e.2, stF)
          | .ok (st3, updated) =>
            let st4 := if env.metaOk then touchDocMapping st3 phone env.now chunkData.length else st3
            (.success chunkData.length (toAdd chunkData existing).length
              (toDelete chunkData existing).length updated "Google Doc synced successfully", st4)
        else (.failure 500 "Failed to fetch existing chunks", st)

/-! ## Spec-side definitions, helpers and concrete example data -/

/-- `Array.prototype.join(sep)` at the string level (for the spec-side
description). -/
def joinSepStr (sep : String) : List String → String
  | [] => ""
  | x :: xs => if xs.isEmpty then x else x ++ sep ++ joinSepStr sep xs

/-- The flattening step in the spec's words: "converting each cell to a
trimmed string, discarding empty cells, and joining the remaining cells with
`" | "`". -/
def spec_flattenRow (row : List String) : String :=
  joinSepStr " | " ((row.map jsTrim).filter (fun s => s ≠ ""))

/-- The claimed per-row chunking: the first row (header) excluded, each
subsequent row flattened into one text chunk. -/
def spec_rowChunks (hash : String → String) (values : List (List String)) : List RowData :=
  (values.drop 1).map fun row =>
    { hash := hash (spec_flattenRow row), content := spec_flattenRow row }

/-- The store carried by a step result: the post-state on success, the state
at the failure point otherwise. -/
def stepStore : StepResult E → Store E
  | .ok st => st
  | .error (_, st) => st

/-- The chunk key data (id, tenant, source, fingerprint) that in-place updates
never touch. -/
def chunkKey (c : StoredChunk E) : Nat × String × String × String :=
  (c.id, c.phone_number, c.source, c.row_hash)

/-- The identity as a (trivially injective) stand-in fingerprint for concrete
runs. -/
def exHash : String → String := fun s => s

def exSt0 : Store Nat := ⟨[], [], [], 0⟩

def exSt1 : Store Nat := ⟨[⟨0, "p", "google_sheet", "a", 0, "a"⟩], [], [], 1⟩

def exEnv1 : SheetEnv Nat :=
  { fetch := .ok [["h"], ["a"]], selectOk := true, deleteOk := true,
    embed := fun _ => .ok 0, updateOk := fun _ => true, insertOk := fun _ => true,
    metaOk := true, now := 5 }

def exEnv2 : SheetEnv Nat :=
  { fetch := .ok [["h"], ["a"]], selectOk := true, deleteOk := true,
    embed := fun _ => .ok 0, updateOk := fun _ => true, insertOk := fun _ => true,
    metaOk := true, now := 9 }

def exEnvDup : SheetEnv Nat :=
  { fetch := .ok [["h"], ["a"], ["a"]], selectOk := true, deleteOk := true,
    embed := fun _ => .ok 0, updateOk := fun _ => true, insertOk := fun _ => true,
    metaOk := true, now := 0 }

def exEnvFetchFail : SheetEnv Nat :=
  { fetch := .error 403, selectOk := true, deleteOk := true,
    embed := fun _ => .ok 0, updateOk := fun _ => true, insertOk := fun _ => true,
    metaOk := true, now := 0 }

def exEnvMetaFail : SheetEnv Nat :=
  { fetch := .ok [["h"], ["a"]], selectOk := true, deleteOk := true,
    embed := fun _ => .ok 0, updateOk := fun _ => true, insertOk := fun _ => true,
    metaOk := false, now := 3 }

def exStMap : Store Nat := ⟨[], [⟨"p", none, 0⟩], [], 0⟩

def exEnvInsFail : SheetEnv Nat :=
  { fetch := .ok [["h"], ["a"]], selectOk := true, deleteOk := true,
    embed := fun _ => .ok 0, updateOk := fun _ => true, insertOk := fun _ => false,
    metaOk := true, now := 0 }

def exEnvEmbFail : SheetEnv Nat :=
  { fetch := .ok [["h"], ["b"]], selectOk := true, deleteOk := true,
    embed := fun _ => .error "rate limited", updateOk := fun _ => true,
    insertOk := fun _ => true, metaOk := true, now := 0 }

def exDocEnv1 : DocEnv Nat :=
  { fetch := .ok "hello", selectOk := true, deleteOk := true,
    embed := fun _ => .ok 0, updateOk := fun _ => true, insertOk := fun _ => true,
    metaOk := true, now := 5 }

def exDocEnv2 : DocEnv Nat :=
  { fetch := .ok "hello", selectOk := true, deleteOk := true,
    embed := fun _ => .ok 0, updateOk := fun _ => true, insertOk := fun _ => true,
    metaOk := true, now := 9 }

/-- The store after the first successful doc sync of `"hello"` from `exSt0`. -/
def exDocSt1 : Store Nat := ⟨[⟨0, "p", "google_doc", "hello", 0, "hello"⟩], [], [], 1⟩

def exDocEnvFetchFail : DocEnv Nat :=
  { fetch := .error 403, selectOk := true, deleteOk := true,
    embed := fun _ => .ok 0, updateOk := fun _ => true, insertOk := fun _ => true,
    metaOk := true, now := 0 }

def exDocEnvMetaFail : DocEnv Nat :=
  { fetch := .ok "hello", selectOk := true, deleteOk := true,
    embed := fun _ => .ok 0, updateOk := fun _ => true, insertOk := fun _ => true,
    metaOk := false, now := 3 }

def exDocStMap : Store Nat := ⟨[], [], [⟨"p", none, 0⟩], 0⟩

def exDocEnvInsFail : DocEnv Nat :=
  { fetch := .ok "hello", selectOk := true, deleteOk := true,
    embed := fun _ => .ok 0, updateOk := fun _ => true, insertOk := fun _ => false,
    metaOk := true, now := 0 }

def exDocEnvEmbFail : DocEnv Nat :=
  { fetch := .ok "b", selectOk := true, deleteOk := true,
    embed := fun _ => .error "rate limited", updateOk := fun _ => true,
    insertOk := fun _ => true, metaOk := true, now := 0 }

/-! ## Basic reconciler lemmas -/

theorem mapGetLast_aux {h : String} {c : StoredChunk E} :
    ∀ (l : List (StoredChunk E)) (acc : Option (StoredChunk E)),
      l.foldl (fun acc c => if c.row_hash == h then some c else acc) acc = some c →
      (c ∈ l ∧ c.row_hash = h) ∨ acc = some c := by
  intro l
  induction l with
  | nil => intro acc hacc; exact Or.inr hacc
  | cons x xs ih =>
    intro acc hacc
    rcases ih _ hacc with h1 | h1
    · exact Or.inl ⟨List.mem_cons_of_mem _ h1.1, h1.2⟩
    · by_cases hx : x.row_hash = h
      · simp [hx] at h1
        exact Or.inl ⟨by simp [← h1], by simp [← h1, hx]⟩
      · simp [hx] at h1
        exact Or.inr h1

theorem mapGetLast_eq_some {h : String} {c : StoredChunk E}
    {existing : List (StoredChunk E)} (hm : mapGetLast existing h = some c) :
    c ∈ existing ∧ c.row_hash = h := by
  rcases mapGetLast_aux existing none hm with h1 | h1
  · exact h1
  · simp at h1

theorem mem_toAdd {rows : List RowData} {existing : List (StoredChunk E)} {r : RowData} :
    r ∈ toAdd rows existing ↔ r ∈ rows ∧ ¬ r.hash ∈ existingHashes existing := by
  simp [toAdd, List.mem_filter]

theorem mem_toDelete {rows : List RowData} {existing : List (StoredChunk E)}
    {c : StoredChunk E} :
    c ∈ toDelete rows existing ↔ c ∈ existing ∧ ¬ c.row_hash ∈ currentHashes rows := by
  simp [toDelete, List.mem_filter]

theorem mem_hashes_toAdd {rows : List RowData} {existing : List (StoredChunk E)} {h : String} :
    h ∈ currentHashes (toAdd rows existing) ↔
      h ∈ currentHashes rows ∧ ¬ h ∈ existingHashes existing := by
  constructor
  · intro hmem
    rcases List.mem_map.1 hmem with ⟨r, hr, rfl⟩
    rcases mem_toAdd.1 hr with ⟨hr1, hr2⟩
    exact ⟨List.mem_map_of_mem _ hr1, hr2⟩
  · intro ⟨h1, h2⟩
    rcases List.mem_map.1 h1 with ⟨r, hr, rfl⟩
    exact List.mem_map_of_mem _ (mem_toAdd.2 ⟨hr, h2⟩)

theorem mem_hashes_toDelete {rows : List RowData} {existing : List (StoredChunk E)}
    {h : String} :
    h ∈ existingHashes (toDelete rows existing) ↔
      h ∈ existingHashes existing ∧ ¬ h ∈ currentHashes rows := by
  constructor
  · intro hmem
    rcases List.mem_map.1 hmem with ⟨c, hc, rfl⟩
    rcases mem_toDelete.1 hc with ⟨hc1, hc2⟩
    exact ⟨List.mem_map_of_mem _ hc1, hc2⟩
  · intro ⟨h1, h2⟩
    rcases List.mem_map.1 h1 with ⟨c, hc, rfl⟩
    exact List.mem_map_of_mem _ (mem_toDelete.2 ⟨hc, h2⟩)

/-- C2.  Reconciler partition: `toAdd` is exactly the current chunks whose
hash has no match among the stored hashes, `toDelete` exactly the stored
chunks whose hash has no match among the current hashes, the two share no
hash, and every hash occurring in either input falls in exactly one of
{unchanged (present on both sides), toAdd, toDelete}. -/
theorem reconciler_partition (rows : List RowData) (existing : List (StoredChunk E)) :
    (∀ r : RowData, r ∈ toAdd rows existing ↔
        r ∈ rows ∧ ¬ r.hash ∈ existingHashes existing) ∧
    (∀ c : StoredChunk E, c ∈ toDelete rows existing ↔
        c ∈ existing ∧ ¬ c.row_hash ∈ currentHashes rows) ∧
    (∀ h : String, ¬(h ∈ currentHashes (toAdd rows existing) ∧
        h ∈ existingHashes (toDelete rows existing))) ∧
    (∀ h : String, h ∈ currentHashes rows ∨ h ∈ existingHashes existing →
      ((h ∈ currentHashes rows ∧ h ∈ existingHashes existing) ∧
          ¬ h ∈ currentHashes (toAdd rows existing) ∧
          ¬ h ∈ existingHashes (toDelete rows existing)) ∨
        (h ∈ currentHashes (toAdd rows existing) ∧
          ¬(h ∈ currentHashes rows ∧ h ∈ existingHashes existing) ∧
          ¬ h ∈ existingHashes (toDelete rows existing)) ∨
        (h ∈ existingHashes (toDelete rows existing) ∧
          ¬(h ∈ currentHashes rows ∧ h ∈ existingHashes existing) ∧
          ¬ h ∈ currentHashes (toAdd rows existing))) := by
  refine ⟨fun _ => mem_toAdd, fun _ => mem_toDelete, fun h => ?_, fun h hmem => ?_⟩
  · rw [mem_hashes_toAdd, mem_hashes_toDelete]; tauto
  · rw [mem_hashes_toAdd, mem_hashes_toDelete]
    rcases hmem with hcur | hex
    · by_cases hex' : h ∈ existingHashes existing
      · exact Or.inl ⟨⟨hcur, hex'⟩, by tauto, by tauto⟩
      · exact Or.inr (Or.inl ⟨⟨hcur, hex'⟩, by tauto, by tauto⟩)
    · by_cases hcur' : h ∈ currentHashes rows
      · exact Or.inl ⟨⟨hcur', hex⟩, by tauto, by tauto⟩
      · exact Or.inr (Or.inr ⟨⟨hex, hcur'⟩, by tauto, by tauto⟩)

/-- Witness for C2, at `rows = [⟨"a","a"⟩, ⟨"b","b"⟩]` and one stored chunk
with hash `"b"` and one with hash `"c"`. -/
theorem reconciler_partition_witness :
    (RowData.mk "a" "a" ∈
        toAdd [RowData.mk "a" "a", RowData.mk "b" "b"]
          [StoredChunk.mk 0 "p" "google_sheet" "b" (0 : Nat) "b",
           StoredChunk.mk 1 "p" "google_sheet" "c" (0 : Nat) "c"] ↔
      RowData.mk "a" "a" ∈ [RowData.mk "a" "a", RowData.mk "b" "b"] ∧
        ¬ "a" ∈ existingHashes
          [StoredChunk.mk 0 "p" "google_sheet" "b" (0 : Nat) "b",
           StoredChunk.mk 1 "p" "google_sheet" "c" (0 : Nat) "c"]) :=
  (reconciler_partition [RowData.mk "a" "a", RowData.mk "b" "b"]
    [StoredChunk.mk 0 "p" "google_sheet" "b" (0 : Nat) "b",
     StoredChunk.mk 1 "p" "google_sheet" "c" (0 : Nat) "c"]).1 (RowData.mk "a" "a")

/-- Core of C4, shared with the idempotence development: consistent
fingerprints plus injectivity on the contents in play make `toUpdate` empty. -/
theorem toUpdate_eq_nil_of_consistent (hash : String → String)
    (rows : List RowData) (existing : List (StoredChunk E))
    (hrows : ∀ r ∈ rows, r.hash = hash r.content)
    (hex : ∀ c ∈ existing, c.row_hash = hash c.content)
    (hinj : ∀ r ∈ rows, ∀ c ∈ existing,
      hash r.content = hash c.content → r.content = c.content) :
    toUpdate rows existing = [] := by
  rw [toUpdate, List.filter_eq_nil_iff]
  intro r hr
  cases hm : mapGetLast existing r.hash with
  | none => simp [hm]
  | some c =>
    rcases mapGetLast_eq_some hm with ⟨hc, hhash⟩
    have : r.content = c.content := by
      apply hinj r hr c hc
      rw [← hrows r hr, ← hex c hc, hhash]
    simp [hm, this]

/-- C4.  When the fingerprint is injective on the contents in play and the
stored hashes are genuine fingerprints of the stored contents, `toUpdate` is
empty; an upstream content edit shows up as old-hash-into-`toDelete` and
new-hash-into-`toAdd`, never as an in-place update. -/
theorem toUpdate_unreachable (hash : String → String)
    (rows : List RowData) (existing : List (StoredChunk E))
    (hrows : ∀ r ∈ rows, r.hash = hash r.content)
    (hex : ∀ c ∈ existing, c.row_hash = hash c.content)
    (hinj : ∀ r ∈ rows, ∀ c ∈ existing,
      hash r.content = hash c.content → r.content = c.content) :
    toUpdate rows existing = [] ∧
    ∀ c ∈ existing, ∀ r ∈ rows,
      (∀ r' ∈ rows, r'.content ≠ c.content) →
      (∀ c' ∈ existing, c'.content ≠ r.content) →
      c ∈ toDelete rows existing ∧ r ∈ toAdd rows existing := by
  constructor
  · exact toUpdate_eq_nil_of_consistent hash rows existing hrows hex hinj
  · intro c hc r hr hold hnew
    constructor
    · refine mem_toDelete.2 ⟨hc, fun hmem => ?_⟩
      rcases List.mem_map.1 hmem with ⟨r', hr', hh⟩
      exact hold r' hr' (hinj r' hr' c hc (by rw [← hrows r' hr', ← hex c hc, hh]))
    · refine mem_toAdd.2 ⟨hr, fun hmem => ?_⟩
      rcases List.mem_map.1 hmem with ⟨c', hc', hh⟩
      exact hnew c' hc' (hinj r hr c' hc' (by rw [← hrows r hr, ← hex c' hc', ← hh])).symm

/-- Witness for C4 with the identity as the (injective) fingerprint: stored
content `"old"`, current content `"new"`. -/
theorem toUpdate_unreachable_witness :
    toUpdate [RowData.mk "new" "new"]
        [StoredChunk.mk 0 "p" "google_sheet" "old" (0 : Nat) "old"] = [] ∧
    ∀ c ∈ [StoredChunk.mk 0 "p" "google_sheet" "old" (0 : Nat) "old"],
      ∀ r ∈ [RowData.mk "new" "new"],
      (∀ r' ∈ [RowData.mk "new" "new"], r'.content ≠ c.content) →
      (∀ c' ∈ [StoredChunk.mk 0 "p" "google_sheet" "old" (0 : Nat) "old"],
        c'.content ≠ r.content) →
      c ∈ toDelete [RowData.mk "new" "new"]
          [StoredChunk.mk 0 "p" "google_sheet" "old" (0 : Nat) "old"] ∧
        r ∈ toAdd [RowData.mk "new" "new"]
          [StoredChunk.mk 0 "p" "google_sheet" "old" (0 : Nat) "old"] :=
  toUpdate_unreachable (fun s => s) [RowData.mk "new" "new"]
    [StoredChunk.mk 0 "p" "google_sheet" "old" (0 : Nat) "old"]
    (by decide) (by decide) (fun r _ c _ h => h)

/-- C9.  Empty source: when the sheet has no data row beyond the header
(`sheetData.length <= 1`) or the doc text is empty, the sync returns a
success response with zero counts and the store — stored chunks and
`last_synced_at` alike — is left entirely unchanged. -/
theorem empty_source_noop (hash : String → String) (phone : String) (envS : SheetEnv E) (envD : DocEnv E)
    (st : Store E) (values : List (List String)) :
    (envS.fetch = .ok values → values.length ≤ 1 →
      syncSheetPOST hash phone envS st = (.success 0 0 0 envS.now, st)) ∧
    (envD.fetch = .ok "" →
      syncDocPOST hash phone envD st = (.success 0 0 0 0 "No content found in the document", st)) := by
  constructor
  · intro hf hlen
    simp [syncSheetPOST, hf, hlen]
  · intro hf
    simp [syncDocPOST, hf]

/-- Witness for C9: a header-only sheet and an empty doc. -/
theorem empty_source_noop_witness :
    syncSheetPOST (fun s => s) "p"
        { fetch := .ok [["h"]], selectOk := true, deleteOk := true,
          embed := fun _ => .ok (0 : Nat), updateOk := fun _ => true,
          insertOk := fun _ => true, metaOk := true, now := 7 }
        ⟨[], [], [], 0⟩ = (.success 0 0 0 7, ⟨[], [], [], 0⟩) ∧
    syncDocPOST (fun s => s) "p"
        { fetch := .ok "", selectOk := true, deleteOk := true,
          embed := fun _ => .ok (0 : Nat), updateOk := fun _ => true,
          insertOk := fun _ => true, metaOk := true, now := 7 }
        ⟨[], [], [], 0⟩ =
      (.success 0 0 0 0 "No content found in the document", ⟨[], [], [], 0⟩) :=
  ⟨(empty_source_noop (fun s => s) "p"
      { fetch := .ok [["h"]], selectOk := true, deleteOk := true,
        embed := fun _ => .ok (0 : Nat), updateOk := fun _ => true,
        insertOk := fun _ => true, metaOk := true, now := 7 }
      { fetch := .ok "", selectOk := true, deleteOk := true,
        embed := fun _ => .ok (0 : Nat), updateOk := fun _ => true,
        insertOk := fun _ => true, metaOk := true, now := 7 }
      ⟨[], [], [], 0⟩ [["h"]]).1 rfl (by decide),
   (empty_source_noop (fun s => s) "p"
      { fetch := .ok [["h"]], selectOk := true, deleteOk := true,
        embed := fun _ => .ok (0 : Nat), updateOk := fun _ => true,
        insertOk := fun _ => true, metaOk := true, now := 7 }
      { fetch := .ok "", selectOk := true, deleteOk := true,
        embed := fun _ => .ok (0 : Nat), updateOk := fun _ => true,
        insertOk := fun _ => true, metaOk := true, now := 7 }
      ⟨[], [], [], 0⟩ [["h"]]).2 rfl⟩

/-! ## The fragmenter contract (C7) -/

theorem chunkListGo_nil (S O n : Nat) : chunkListGo S O n [] = [] := by
  cases n with
  | zero => rfl
  | succ n => rw [chunkListGo]; rfl

theorem chunkListGo_ne_nil (S O : Nat) {n : Nat} {l : List Char}
    (hl : l ≠ []) (hn : l.length ≤ n) : chunkListGo S O n l ≠ [] := by
  cases n with
  | zero =>
    have := List.length_pos.2 hl
    omega
  | succ n =>
    rw [chunkListGo]
    rw [if_neg (by simp [List.isEmpty_iff, hl])]
    split <;> simp

theorem chunkListGo_head? (S O : Nat) {n : Nat} {l : List Char}
    (hl : l ≠ []) (hn : l.length ≤ n) :
    (chunkListGo S O n l).head? = some (if l.length ≤ S then l else l.take S) := by
  cases n with
  | zero =>
    have := List.length_pos.2 hl
    omega
  | succ n =>
    rw [chunkListGo]
    rw [if_neg (by simp [List.isEmpty_iff, hl])]
    split <;> rfl

theorem chunkListGo_length_le (S O : Nat) (hOS : O < S) :
    ∀ (n : Nat) (l : List Char), l.length ≤ n →
      ∀ c ∈ chunkListGo S O n l, c.length ≤ S := by
  intro n
  induction n with
  | zero =>
    intro l hn c hc
    rw [List.length_eq_zero.1 (Nat.le_zero.1 hn), chunkListGo_nil] at hc
    simp at hc
  | succ n ih =>
    intro l hn c hc
    rw [chunkListGo] at hc
    by_cases hemp : l.isEmpty
    · rw [if_pos hemp] at hc; simp at hc
    · rw [if_neg hemp] at hc
      by_cases hlen : l.length ≤ S
      · rw [if_pos hlen] at hc
        simp at hc
        exact hc ▸ hlen
      · rw [if_neg hlen] at hc
        rcases List.mem_cons.1 hc with rfl | hc
        · simp [Nat.le_of_not_lt]
        · refine ih _ ?_ c hc
          have hd : (l.drop (S - O)).length = l.length - (S - O) := by simp
          omega

theorem chunkListGo_dropLast_length (S O : Nat) (hOS : O < S) :
    ∀ (n : Nat) (l : List Char), l.length ≤ n →
      ∀ c ∈ (chunkListGo S O n l).dropLast, c.length = S := by
  intro n
  induction n with
  | zero =>
    intro l hn c hc
    rw [List.length_eq_zero.1 (Nat.le_zero.1 hn), chunkListGo_nil] at hc
    simp at hc
  | succ n ih =>
    intro l hn c hc
    rw [chunkListGo] at hc
    by_cases hemp : l.isEmpty
    · rw [if_pos hemp] at hc; simp at hc
    · rw [if_neg hemp] at hc
      by_cases hlen : l.length ≤ S
      · rw [if_pos hlen] at hc
        simp at hc
      · rw [if_neg hlen] at hc
        have hd : (l.drop (S - O)).length = l.length - (S - O) := by simp
        have hne : l.drop (S - O) ≠ [] := by
          intro h0
          rw [h0] at hd
          simp at hd
          omega
        have hfit : (l.drop (S - O)).length ≤ n := by omega
        rw [List.dropLast_cons_of_ne_nil (chunkListGo_ne_nil S O hne hfit)] at hc
        rcases List.mem_cons.1 hc with rfl | hc
        · simp
          omega
        · exact ih _ hfit c hc

theorem chunkListGo_chain (S O : Nat) (hOS : O < S) :
    ∀ (n : Nat) (l : List Char), l.length ≤ n →
      List.Chain' (fun a b => b.take O = a.drop (S - O)) (chunkListGo S O n l) := by
  intro n
  induction n with
  | zero =>
    intro l hn
    rw [List.length_eq_zero.1 (Nat.le_zero.1 hn), chunkListGo_nil]
    exact List.chain'_nil
  | succ n ih =>
    intro l hn
    rw [chunkListGo]
    by_cases hemp : l.isEmpty
    · rw [if_pos hemp]; exact List.chain'_nil
    · rw [if_neg hemp]
      by_cases hlen : l.length ≤ S
      · rw [if_pos hlen]
        simp
      · rw [if_neg hlen]
        have hd : (l.drop (S - O)).length = l.length - (S - O) := by simp
        have hne : l.drop (S - O) ≠ [] := by
          intro h0
          rw [h0] at hd
          simp at hd
          omega
        have hfit : (l.drop (S - O)).length ≤ n := by omega
        rw [List.chain'_cons']
        refine ⟨?_, ih _ hfit⟩
        intro b hb
        rw [chunkListGo_head? S O hne hfit] at hb
        have hb' : b = if (l.drop (S - O)).length ≤ S
            then l.drop (S - O) else (l.drop (S - O)).take S := by
          exact Option.some_injective _ hb.symm
        have htake : (l.take S).drop (S - O) = (l.drop (S - O)).take O := by
          rw [List.drop_take]
          congr 1
          omega
        rw [htake, hb']
        split
        · rfl
        · rw [List.take_take]
          congr 1
          omega



/-- C7.  The fragmenter contract: for `O < S`, `chunkText` returns an ordered
finite sequence of substrings where consecutive substrings overlap by `O`
characters (the first `O` characters of each chunk are the last `O`
characters — `drop (S - O)` — of its predecessor), no substring exceeds `S`
characters, every chunk but the last has exactly `S` characters, and empty
input yields the empty sequence; for `O ≥ S` it rejects with a configuration
error. -/
theorem chunkText_contract (text : String) (S O : Nat) :
    (S ≤ O → ∃ msg, chunkText text S O = .error msg) ∧
    (O < S → ∃ cs, chunkText text S O = .ok cs ∧
      (text = "" → cs = []) ∧
      (∀ c ∈ cs, c.data.length ≤ S) ∧
      (∀ c ∈ cs.dropLast, c.data.length = S) ∧
      List.Chain' (fun a b => b.data.take O = a.data.drop (S - O)) cs) := by
  constructor
  · intro hSO
    refine ⟨"chunkText: overlap must be smaller than chunk size", ?_⟩
    rw [chunkText, if_neg (by omega)]
  · intro hOS
    refine ⟨_, by rw [chunkText, if_pos hOS], ?_, ?_, ?_, ?_⟩
    · intro h0
      subst h0
      rfl
    · intro c hc
      rcases List.mem_map.1 hc with ⟨l', hl', rfl⟩
      exact chunkListGo_length_le S O (by omega) _ _ le_rfl l' hl'
    · intro c hc
      rw [← List.map_dropLast] at hc
      rcases List.mem_map.1 hc with ⟨l', hl', rfl⟩
      exact chunkListGo_dropLast_length S O hOS _ _ le_rfl l' hl'
    · rw [List.chain'_map]
      exact chunkListGo_chain S O hOS _ _ le_rfl

/-- Witness for C7 at `text = "abcdef"`, `S = 3`, `O = 1` (and the rejection
side at `S = 1`, `O = 3`). -/
theorem chunkText_contract_witness :
    (∃ msg, chunkText "abcdef" 1 3 = .error msg) ∧
    (∃ cs, chunkText "abcdef" 3 1 = .ok cs ∧
      (("abcdef" : String) = "" → cs = []) ∧
      (∀ c ∈ cs, c.data.length ≤ 3) ∧
      (∀ c ∈ cs.dropLast, c.data.length = 3) ∧
      List.Chain' (fun a b : String => b.data.take 1 = a.data.drop (3 - 1)) cs) :=
  ⟨(chunkText_contract "abcdef" 1 3).1 (by omega),
   (chunkText_contract "abcdef" 3 1).2 (by omega)⟩

/-! ## Trimming and flattening lemmas (C8) -/
/-! ## Trimming and flattening lemmas (C8) -/

theorem dropTrailingWs_getLast_not_ws :
    ∀ (l : List Char) (c : Char), (dropTrailingWs l).getLast? = some c → isWsChar c = false := by
  intro l
  induction l with
  | nil => intro c hc; simp [dropTrailingWs] at hc
  | cons a as ih =>
    intro c hc
    rw [dropTrailingWs] at hc
    by_cases hcond : (dropTrailingWs as).isEmpty && isWsChar a
    · rw [if_pos hcond] at hc
      simp at hc
    · rw [if_neg hcond] at hc
      cases hrest : dropTrailingWs as with
      | nil =>
        rw [hrest] at hc hcond
        simp at hc hcond
        subst hc
        exact hcond
      | cons b bs =>
        rw [hrest] at hc
        rw [List.getLast?_cons_cons] at hc
        exact ih c (hrest ▸ hc)

theorem dropTrailingWs_eq_self :
    ∀ l : List Char, (∀ c, l.getLast? = some c → isWsChar c = false) →
      dropTrailingWs l = l := by
  intro l
  induction l with
  | nil => intro _; rfl
  | cons a as ih =>
    intro hlast
    cases as with
    | nil =>
      have ha : isWsChar a = false := hlast a (by simp)
      rw [dropTrailingWs]
      simp [dropTrailingWs, ha]
    | cons b bs =>
      have hrec : dropTrailingWs (b :: bs) = b :: bs :=
        ih fun c hc => hlast c (by rw [List.getLast?_cons_cons]; exact hc)
      rw [dropTrailingWs, hrec]
      simp

theorem dropTrailingWs_head? :
    ∀ (l : List Char) (c : Char), (dropTrailingWs l).head? = some c → l.head? = some c := by
  intro l
  induction l with
  | nil => intro c hc; simp [dropTrailingWs] at hc
  | cons a as _ =>
    intro c hc
    rw [dropTrailingWs] at hc
    by_cases hcond : (dropTrailingWs as).isEmpty && isWsChar a
    · rw [if_pos hcond] at hc
      simp at hc
    · rw [if_neg hcond] at hc
      simp at hc ⊢
      exact hc

theorem dropWhile_ws_head_not_ws :
    ∀ (l : List Char) (c : Char),
      (l.dropWhile isWsChar).head? = some c → isWsChar c = false := by
  intro l
  induction l with
  | nil => intro c hc; simp at hc
  | cons a as ih =>
    intro c hc
    rw [List.dropWhile_cons] at hc
    by_cases ha : isWsChar a
    · rw [if_pos ha] at hc
      exact ih c hc
    · rw [if_neg ha] at hc
      simp at hc
      subst hc
      simpa using ha

theorem dropWhile_ws_eq_self (l : List Char)
    (h : ∀ c, l.head? = some c → isWsChar c = false) :
    l.dropWhile isWsChar = l := by
  cases l with
  | nil => rfl
  | cons a as =>
    rw [List.dropWhile_cons, if_neg (by simp [h a rfl])]

theorem trimChars_head_not_ws (l : List Char) (c : Char)
    (hc : (trimChars l).head? = some c) : isWsChar c = false :=
  dropWhile_ws_head_not_ws l c (dropTrailingWs_head? _ c hc)

theorem trimChars_getLast_not_ws (l : List Char) (c : Char)
    (hc : (trimChars l).getLast? = some c) : isWsChar c = false :=
  dropTrailingWs_getLast_not_ws _ c hc

theorem trimChars_eq_self (l : List Char)
    (hhead : ∀ c, l.head? = some c → isWsChar c = false)
    (hlast : ∀ c, l.getLast? = some c → isWsChar c = false) :
    trimChars l = l := by
  rw [trimChars, dropWhile_ws_eq_self l hhead]
  exact dropTrailingWs_eq_self l hlast

theorem joinCells_ne_nil :
    ∀ ks : List (List Char), (∀ k ∈ ks, k ≠ []) → ks ≠ [] → joinCells ks ≠ [] := by
  intro ks hk hne
  cases ks with
  | nil => exact absurd rfl hne
  | cons x t =>
    rw [joinCells]
    cases t with
    | nil => simpa using hk x (by simp)
    | cons y u => simp

theorem joinCells_head? (x : List Char) (ks : List (List Char)) (hx : x ≠ []) :
    (joinCells (x :: ks)).head? = x.head? := by
  rw [joinCells]
  cases ks with
  | nil => simp
  | cons y t =>
    cases x with
    | nil => exact absurd rfl hx
    | cons a as => simp

theorem joinCells_getLast_not_ws :
    ∀ ks : List (List Char), (∀ k ∈ ks, k ≠ []) →
      (∀ k ∈ ks, ∀ c, k.getLast? = some c → isWsChar c = false) →
      ∀ c, (joinCells ks).getLast? = some c → isWsChar c = false := by
  intro ks
  induction ks with
  | nil => intro _ _ c hc; simp [joinCells] at hc
  | cons x t ih =>
    intro hne hws c hc
    rw [joinCells] at hc
    cases t with
    | nil =>
      simp at hc
      exact hws x (by simp) c hc
    | cons y u =>
      rw [if_neg (by simp)] at hc
      have hju : joinCells (y :: u) ≠ [] :=
        joinCells_ne_nil (y :: u) (fun k hk => hne k (List.mem_cons_of_mem _ hk)) (by simp)
      have hc' : ((x ++ [' ', '|', ' ']) ++ joinCells (y :: u)).getLast? = some c := by
        simpa using hc
      rw [List.getLast?_append_of_ne_nil _ hju] at hc'
      exact ih (fun k hk => hne k (List.mem_cons_of_mem _ hk))
        (fun k hk => hws k (List.mem_cons_of_mem _ hk)) c hc' 

/-- The blank-row check of the sheet sync is redundant on an already-flattened
row: trimming a flattened row returns it unchanged. -/
theorem flattenRow_trim_self (row : List String) :
    jsTrim (flattenRow row) = flattenRow row := by
  rw [flattenRow, jsTrim]
  cases hk : (row.map (fun c => trimChars c.data)).filter (fun l => !l.isEmpty) with
  | nil => rfl
  | cons x t =>
    have hmem : ∀ k ∈ x :: t, ∃ s : String, k = trimChars s.data := by
      intro k hk'
      rw [← hk] at hk'
      rcases List.mem_filter.1 hk' with ⟨hk'', _⟩
      rcases List.mem_map.1 hk'' with ⟨s, _, hs⟩
      exact ⟨s, hs.symm⟩
    have hne : ∀ k ∈ x :: t, k ≠ [] := by
      intro k hk'
      rw [← hk] at hk'
      rcases List.mem_filter.1 hk' with ⟨_, hk3⟩
      simpa [List.isEmpty_iff] using hk3
    have hlast : ∀ k ∈ x :: t, ∀ c, k.getLast? = some c → isWsChar c = false := by
      intro k hk' c hc
      rcases hmem k hk' with ⟨s, hs⟩
      exact trimChars_getLast_not_ws s.data c (hs ▸ hc)
    show String.mk (trimChars (joinCells (x :: t))) = String.mk (joinCells (x :: t))
    congr 1
    refine trimChars_eq_self _ ?_ ?_
    · intro c hc
      rw [joinCells_head? x t (hne x (by simp))] at hc
      rcases hmem x (by simp) with ⟨s, hs⟩
      exact trimChars_head_not_ws s.data c (hs ▸ hc)
    · exact joinCells_getLast_not_ws (x :: t) hne hlast

/-! ## Spec-side flattening (C8) -/




theorem joinSepStr_mk (ks : List (List Char)) :
    joinSepStr " | " (ks.map String.mk) = String.mk (joinCells ks) := by
  induction ks with
  | nil => rfl
  | cons x t ih =>
    rw [List.map_cons, joinSepStr, joinCells]
    cases t with
    | nil => simp
    | cons y u =>
      rw [if_neg (by simp), if_neg (by simp), ih]
      apply String.ext
      simp

theorem spec_flattenRow_eq (row : List String) : spec_flattenRow row = flattenRow row := by
  rw [spec_flattenRow, flattenRow]
  have h2 : row.map jsTrim = (row.map (fun c => trimChars c.data)).map String.mk := by
    simp [jsTrim, Function.comp]
  rw [h2, List.filter_map, ← joinSepStr_mk]
  congr 2
  apply List.filter_congr
  intro l _
  cases l <;> simp [Function.comp, String.ext_iff]

theorem filterMap_guard {α β : Type} (p : α → Bool) (f : α → β) (l : List α) :
    l.filterMap (fun a => if p a then some (f a) else none) = (l.filter p).map f := by
  induction l with
  | nil => rfl
  | cons a as ih => by_cases hp : p a <;> simp [List.filterMap_cons, List.filter_cons, hp, ih]

/-- C8 counterexample: for the sheet `[["h"], [""]]` (one header row, one data
row of a single empty cell), the claimed flattening produces one (empty)
chunk for the data row, but the sync produces none: rows whose flattening is
blank are skipped. -/
theorem rowDataOf_counterexample :
    spec_rowChunks (fun s => s) [["h"], [""]] = [{ hash := "", content := "" }] ∧
    rowDataOf (fun s => s) [["h"], [""]] = [] := by
  decide

/-- C8 (amended).  Sheet-row flattening: the header row is excluded, and each
subsequent row is flattened by trimming every cell, discarding empty cells
and joining the rest with `" | "` — except that rows whose flattening is the
empty string are skipped and produce no chunk at all. -/
theorem rowDataOf_eq_spec (hash : String → String) (values : List (List String)) :
    rowDataOf hash values = (spec_rowChunks hash values).filter (fun r => r.content ≠ "") := by
  rw [rowDataOf, spec_rowChunks, List.filter_map]
  simp only [spec_flattenRow_eq]
  rw [filterMap_guard (fun row => jsTrim (flattenRow row) != "")
      (fun row => RowData.mk (hash (flattenRow row)) (flattenRow row))]
  congr 1
  apply List.filter_congr
  intro row _
  rw [flattenRow_trim_self]
  by_cases h : flattenRow row = "" <;> simp [h]

/-! ## Apply-phase infrastructure -/


theorem stepStore_ok (st : Store E) : stepStore (.ok st : StepResult E) = st := rfl

theorem map_eq_of_forall {α β : Type} {f g : α → β} :
    ∀ l : List α, (∀ a ∈ l, f a = g a) → l.map f = l.map g := by
  intro l h
  induction l with
  | nil => rfl
  | cons a as ih =>
    rw [List.map_cons, List.map_cons, h a (by simp), ih fun x hx => h x (by simp [hx])]


theorem updateChunkById_keys (st : Store E) (i : Nat) (cont : String) (e : E) :
    (updateChunkById st i cont e).chunks.map chunkKey = st.chunks.map chunkKey := by
  rw [updateChunkById]
  show (st.chunks.map _).map _ = _
  rw [List.map_map]
  apply map_eq_of_forall
  intro c _
  by_cases h : c.id == i <;> simp [Function.comp, chunkKey, h]

theorem sheetDeletePhase_ok {dok : Bool} {tDel : List (StoredChunk E)} {st st' : Store E}
    (h : sheetDeletePhase dok tDel st = .ok st') : st' = sheetDeleteApply st tDel := by
  rw [sheetDeletePhase] at h
  by_cases hd : tDel.isEmpty
  · rw [if_pos hd] at h
    rw [sheetDeleteApply, if_pos hd]
    exact (Except.ok.inj h).symm
  · rw [if_neg hd] at h
    by_cases hok : dok
    · rw [if_pos hok] at h
      exact (Except.ok.inj h).symm
    · rw [if_neg hok] at h
      cases h

theorem sheetDeletePhase_ok_of (dok : Bool) (tDel : List (StoredChunk E)) (st : Store E)
    (h : dok = true) : sheetDeletePhase dok tDel st = .ok (sheetDeleteApply st tDel) := by
  rw [sheetDeletePhase, sheetDeleteApply]
  by_cases hd : tDel.isEmpty
  · rw [if_pos hd, if_pos hd]
  · rw [if_neg hd, if_neg hd, if_pos h]

theorem sheetDeleteApply_chunks (st : Store E) (tDel : List (StoredChunk E)) :
    (sheetDeleteApply st tDel).chunks =
      st.chunks.filter (fun c => !((tDel.map (·.id)).contains c.id)) := by
  rw [sheetDeleteApply]
  by_cases hd : tDel.isEmpty
  · rw [if_pos hd]
    rw [List.isEmpty_iff] at hd
    subst hd
    simp
  · rw [if_neg hd]
    rfl

theorem sheetDeleteApply_rest (st : Store E) (tDel : List (StoredChunk E)) :
    (sheetDeleteApply st tDel).sheetMappings = st.sheetMappings ∧
    (sheetDeleteApply st tDel).docMappings = st.docMappings ∧
    (sheetDeleteApply st tDel).nextId = st.nextId := by
  rw [sheetDeleteApply]
  split <;> exact ⟨rfl, rfl, rfl⟩

theorem sheetUpdateGo_ok_calls {embed : String → Except String E} {updateOk : Nat → Bool}
    {existing : List (StoredChunk E)} :
    ∀ (tU : List RowData) (k : Nat) (st st' : Store E),
      sheetUpdateGo embed updateOk existing tU k st = .ok st' →
      (∀ r ∈ tU, ∃ e, embed r.content = .ok e) ∧
      (∀ j, j < tU.length → updateOk (k + j) = true) := by
  intro tU
  induction tU with
  | nil => intro k st st' _; exact ⟨by simp, by simp⟩
  | cons r rest ih =>
    intro k st st' h
    rw [sheetUpdateGo] at h
    cases he : embed r.content with
    | error m => simp [he] at h
    | ok e =>
      simp only [he] at h
      cases hm : mapGetLast existing r.hash with
      | none => simp [hm] at h
      | some c =>
        simp only [hm] at h
        by_cases hok : updateOk k
        · rw [if_pos hok] at h
          rcases ih (k + 1) _ _ h with ⟨h1, h2⟩
          refine ⟨?_, ?_⟩
          · intro r' hr'
            rcases List.mem_cons.1 hr' with rfl | hr'
            · exact ⟨e, he⟩
            · exact h1 r' hr'
          · intro j hj
            cases j with
            | zero => simpa using hok
            | succ j =>
              have hgoal : k + (j + 1) = (k + 1) + j := by omega
              rw [hgoal]
              exact h2 j (by simpa using hj)
        · rw [if_neg hok] at h
          cases h

theorem sheetUpdateGo_ok_state {embed : String → Except String E} {updateOk : Nat → Bool}
    {existing : List (StoredChunk E)} :
    ∀ (tU : List RowData) (k : Nat) (st st' : Store E),
      sheetUpdateGo embed updateOk existing tU k st = .ok st' →
      st'.sheetMappings = st.sheetMappings ∧ st'.docMappings = st.docMappings ∧
      st'.nextId = st.nextId ∧ st'.chunks.map chunkKey = st.chunks.map chunkKey := by
  intro tU
  induction tU with
  | nil =>
    intro k st st' h
    cases h
    exact ⟨rfl, rfl, rfl, rfl⟩
  | cons r rest ih =>
    intro k st st' h
    rw [sheetUpdateGo] at h
    cases he : embed r.content with
    | error m => simp [he] at h
    | ok e =>
      simp only [he] at h
      cases hm : mapGetLast existing r.hash with
      | none => simp [hm] at h
      | some c =>
        simp only [hm] at h
        by_cases hok : updateOk k
        · rw [if_pos hok] at h
          rcases ih (k + 1) _ _ h with ⟨h1, h2, h3, h4⟩
          refine ⟨h1, h2, h3, ?_⟩
          rw [h4, updateChunkById_keys]
        · rw [if_neg hok] at h
          cases h

theorem sheetUpdateGo_stepStore {embed : String → Except String E} {updateOk : Nat → Bool}
    {existing : List (StoredChunk E)} :
    ∀ (tU : List RowData) (k : Nat) (st : Store E),
      (stepStore (sheetUpdateGo embed updateOk existing tU k st)).sheetMappings =
        st.sheetMappings ∧
      (stepStore (sheetUpdateGo embed updateOk existing tU k st)).docMappings =
        st.docMappings := by
  intro tU
  induction tU with
  | nil => intro k st; exact ⟨rfl, rfl⟩
  | cons r rest ih =>
    intro k st
    rw [sheetUpdateGo]
    cases he : embed r.content with
    | error m => exact ⟨rfl, rfl⟩
    | ok e =>
      cases hm : mapGetLast existing r.hash with
      | none => exact ⟨rfl, rfl⟩
      | some c =>
        dsimp only
        by_cases hok : updateOk k
        · rw [if_pos hok]
          exact ih (k + 1) (updateChunkById st c.id r.content e)
        · rw [if_neg hok]
          exact ⟨rfl, rfl⟩

theorem embedAll_ok_length {embed : String → Except String E} :
    ∀ {b : List RowData} {es : List E}, embedAll embed b = .ok es → es.length = b.length := by
  intro b
  induction b with
  | nil =>
    intro es h
    cases h
    rfl
  | cons r rest ih =>
    intro es h
    rw [embedAll] at h
    cases he : embed r.content with
    | error m => simp [he] at h
    | ok e =>
      simp only [he] at h
      cases hrest : embedAll embed rest with
      | error m => simp [hrest] at h
      | ok es' =>
        simp only [hrest] at h
        cases h
        simp [ih hrest]

theorem embedAll_ok_mem {embed : String → Except String E} :
    ∀ {b : List RowData} {es : List E}, embedAll embed b = .ok es →
      ∀ r ∈ b, ∃ e, embed r.content = .ok e := by
  intro b
  induction b with
  | nil => intro es _ r hr; simp at hr
  | cons r' rest ih =>
    intro es h r hr
    rw [embedAll] at h
    cases he : embed r'.content with
    | error m => simp [he] at h
    | ok e =>
      simp only [he] at h
      cases hrest : embedAll embed rest with
      | error m => simp [hrest] at h
      | ok es' =>
        rcases List.mem_cons.1 hr with rfl | hr
        · exact ⟨e, he⟩
        · exact ih hrest r hr

theorem embedAll_error_of_head {embed : String → Except String E} {r : RowData}
    (rest : List RowData) {m : String} (he : embed r.content = .error m) :
    embedAll embed (r :: rest) = .error m := by
  rw [embedAll, he]

theorem freshChunks_append (phone source : String) :
    ∀ (l1 l2 : List (RowData × E)) (n : Nat),
      freshChunks phone source n (l1 ++ l2) =
        freshChunks phone source n l1 ++ freshChunks phone source (n + l1.length) l2 := by
  intro l1
  induction l1 with
  | nil => intro l2 n; simp [freshChunks]
  | cons re rest ih =>
    intro l2 n
    cases re with
    | mk r e =>
      rw [List.cons_append, freshChunks, freshChunks, ih]
      have harith : n + 1 + rest.length = n + (rest.length + 1) := by omega
      simp [harith]

theorem freshChunks_length (phone source : String) :
    ∀ (z : List (RowData × E)) (n : Nat), (freshChunks phone source n z).length = z.length := by
  intro z
  induction z with
  | nil => intro n; rfl
  | cons re rest ih =>
    intro n
    cases re with
    | mk r e => rw [freshChunks]; simp [ih]

theorem freshChunks_mem (phone source : String) :
    ∀ (z : List (RowData × E)) (n : Nat) (c : StoredChunk E),
      c ∈ freshChunks phone source n z →
      ∃ re ∈ z, c.phone_number = phone ∧ c.source = source ∧
        c.row_hash = re.1.hash ∧ c.content = re.1.content ∧ n ≤ c.id := by
  intro z
  induction z with
  | nil => intro n c hc; simp [freshChunks] at hc
  | cons re rest ih =>
    intro n c hc
    cases re with
    | mk r e =>
      rw [freshChunks] at hc
      rcases List.mem_cons.1 hc with rfl | hc
      · exact ⟨(r, e), by simp, rfl, rfl, rfl, rfl, le_rfl⟩
      · rcases ih (n + 1) c hc with ⟨re', hre', h1, h2, h3, h4, h5⟩
        exact ⟨re', by simp [hre'], h1, h2, h3, h4, by omega⟩

theorem freshChunks_exists_of_mem (phone source : String) :
    ∀ (z : List (RowData × E)) (n : Nat) (re : RowData × E), re ∈ z →
      ∃ c ∈ freshChunks phone source n z,
        c.row_hash = re.1.hash ∧ c.content = re.1.content := by
  intro z
  induction z with
  | nil => intro n re hre; simp at hre
  | cons re0 rest ih =>
    intro n re hre
    cases re0 with
    | mk r e =>
      rw [freshChunks]
      rcases List.mem_cons.1 hre with rfl | hre
      · exact ⟨(⟨n, phone, source, r.content, e, r.hash⟩ : StoredChunk E), by simp, rfl, rfl⟩
      · rcases ih (n + 1) re hre with ⟨c, hc, h1, h2⟩
        exact ⟨c, by simp [hc], h1, h2⟩

theorem zip_mem_left {α β : Type} :
    ∀ (l : List α) (es : List β), es.length = l.length →
      ∀ a ∈ l, ∃ e, (a, e) ∈ l.zip es := by
  intro l
  induction l with
  | nil => intro es _ a ha; simp at ha
  | cons x xs ih =>
    intro es h a ha
    cases es with
    | nil => simp at h
    | cons e es' =>
      rcases List.mem_cons.1 ha with rfl | ha
      · exact ⟨e, by simp⟩
      · rcases ih es' (by simpa using h) a ha with ⟨e', he'⟩
        exact ⟨e', by simp [he']⟩

theorem zip_append_eq {α β : Type} :
    ∀ (l1 : List α) (es1 : List β) (l2 : List α) (es2 : List β),
      es1.length = l1.length →
      (l1 ++ l2).zip (es1 ++ es2) = l1.zip es1 ++ l2.zip es2 := by
  intro l1
  induction l1 with
  | nil =>
    intro es1 l2 es2 h
    have hnil : es1 = [] := List.length_eq_zero.1 (by simpa using h)
    subst hnil
    simp
  | cons x xs ih =>
    intro es1 l2 es2 h
    cases es1 with
    | nil => simp at h
    | cons e es' =>
      simp only [List.cons_append, List.zip_cons_cons]
      rw [ih es' l2 es2 (by simpa using h)]

theorem sheetAddGo_ok_shape {embed : String → Except String E} {insertOk : Nat → Bool}
    {phone : String} :
    ∀ (bs : List (List RowData)) (k : Nat) (st st' : Store E),
      sheetAddGo embed insertOk phone bs k st = .ok st' →
      ∃ es : List E, es.length = bs.flatten.length ∧
        st'.chunks = st.chunks ++ freshChunks phone "google_sheet" st.nextId (bs.flatten.zip es) ∧
        st'.nextId = st.nextId + bs.flatten.length ∧
        st'.sheetMappings = st.sheetMappings ∧ st'.docMappings = st.docMappings := by
  intro bs
  induction bs with
  | nil =>
    intro k st st' h
    cases h
    exact ⟨[], by simp, by simp [freshChunks], by simp, rfl, rfl⟩
  | cons b rest ih =>
    intro k st st' h
    rw [sheetAddGo] at h
    cases he : embedAll embed b with
    | error m => simp [he] at h
    | ok esb =>
      simp only [he] at h
      by_cases hok : insertOk k
      · rw [if_pos hok] at h
        rcases ih (k + 1) _ _ h with ⟨esr, hlen, hch, hnext, hsm, hdm⟩
        have hlb : esb.length = b.length := embedAll_ok_length he
        have hzl : (b.zip esb).length = b.length := by
          rw [List.length_zip, hlb, Nat.min_self]
        refine ⟨esb ++ esr, ?_, ?_, ?_, ?_, ?_⟩
        · simp [hlen, hlb]
        · rw [hch]
          have hinsc : (insertChunks st phone "google_sheet" (b.zip esb)).chunks =
              st.chunks ++ freshChunks phone "google_sheet" st.nextId (b.zip esb) := rfl
          have hinsn : (insertChunks st phone "google_sheet" (b.zip esb)).nextId =
              st.nextId + (b.zip esb).length := rfl
          rw [hinsc, hinsn, hzl]
          simp only [List.flatten_cons]
          rw [zip_append_eq b esb rest.flatten esr hlb,
            freshChunks_append phone "google_sheet" (b.zip esb) (rest.flatten.zip esr) st.nextId,
            hzl, List.append_assoc]
        · rw [hnext]
          have hinsn : (insertChunks st phone "google_sheet" (b.zip esb)).nextId =
              st.nextId + (b.zip esb).length := rfl
          rw [hinsn, hzl]
          simp only [List.flatten_cons, List.length_append]
          omega
        · rw [hsm]; rfl
        · rw [hdm]; rfl
      · rw [if_neg hok] at h
        cases h

theorem sheetAddGo_ok_calls {embed : String → Except String E} {insertOk : Nat → Bool}
    {phone : String} :
    ∀ (bs : List (List RowData)) (k : Nat) (st st' : Store E),
      sheetAddGo embed insertOk phone bs k st = .ok st' →
      (∀ b ∈ bs, ∀ r ∈ b, ∃ e, embed r.content = .ok e) ∧
      (∀ j, j < bs.length → insertOk (k + j) = true) := by
  intro bs
  induction bs with
  | nil => intro k st st' _; exact ⟨by simp, by simp⟩
  | cons b rest ih =>
    intro k st st' h
    rw [sheetAddGo] at h
    cases he : embedAll embed b with
    | error m => simp [he] at h
    | ok esb =>
      simp only [he] at h
      by_cases hok : insertOk k
      · rw [if_pos hok] at h
        rcases ih (k + 1) _ _ h with ⟨h1, h2⟩
        refine ⟨?_, ?_⟩
        · intro b' hb' r hr
          rcases List.mem_cons.1 hb' with rfl | hb'
          · exact embedAll_ok_mem he r hr
          · exact h1 b' hb' r hr
        · intro j hj
          cases j with
          | zero => simpa using hok
          | succ j =>
            have hgoal : k + (j + 1) = (k + 1) + j := by omega
            rw [hgoal]
            exact h2 j (by simpa using hj)
      · rw [if_neg hok] at h
        cases h

theorem sheetAddGo_append {embed : String → Except String E} {insertOk : Nat → Bool}
    {phone : String} :
    ∀ (l1 l2 : List (List RowData)) (k : Nat) (st : Store E),
      sheetAddGo embed insertOk phone (l1 ++ l2) k st =
        match sheetAddGo embed insertOk phone l1 k st with
        | .ok st' => sheetAddGo embed insertOk phone l2 (k + l1.length) st'
        | .error e => .error e := by
  intro l1
  induction l1 with
  | nil => intro l2 k st; simp [sheetAddGo]
  | cons b rest ih =>
    intro l2 k st
    rw [List.cons_append, sheetAddGo, sheetAddGo]
    cases he : embedAll embed b with
    | error m => rfl
    | ok esb =>
      dsimp only
      by_cases hok : insertOk k
      · rw [if_pos hok, if_pos hok, ih]
        have hgoal : k + (rest.length + 1) = (k + 1) + rest.length := by omega
        simp [hgoal]
      · rw [if_neg hok, if_neg hok]

theorem sheetAddGo_stepStore {embed : String → Except String E} {insertOk : Nat → Bool}
    {phone : String} :
    ∀ (bs : List (List RowData)) (k : Nat) (st : Store E),
      (stepStore (sheetAddGo embed insertOk phone bs k st)).sheetMappings =
        st.sheetMappings ∧
      (stepStore (sheetAddGo embed insertOk phone bs k st)).docMappings =
        st.docMappings := by
  intro bs
  induction bs with
  | nil => intro k st; exact ⟨rfl, rfl⟩
  | cons b rest ih =>
    intro k st
    rw [sheetAddGo]
    cases he : embedAll embed b with
    | error m => exact ⟨rfl, rfl⟩
    | ok esb =>
      dsimp only
      by_cases hok : insertOk k
      · rw [if_pos hok]
        exact ih (k + 1) (insertChunks st phone "google_sheet" (b.zip esb))
      · rw [if_neg hok]
        exact ⟨rfl, rfl⟩

theorem sheetDeletePhase_stepStore (dok : Bool) (tDel : List (StoredChunk E)) (st : Store E) :
    (stepStore (sheetDeletePhase dok tDel st)).sheetMappings = st.sheetMappings ∧
    (stepStore (sheetDeletePhase dok tDel st)).docMappings = st.docMappings := by
  rw [sheetDeletePhase]
  by_cases hd : tDel.isEmpty
  · rw [if_pos hd]; exact ⟨rfl, rfl⟩
  · rw [if_neg hd]
    by_cases hok : dok
    · rw [if_pos hok]
      exact ⟨(sheetDeleteApply_rest st tDel).1, (sheetDeleteApply_rest st tDel).2.1⟩
    · rw [if_neg hok]; exact ⟨rfl, rfl⟩

theorem batchesGo_join :
    ∀ (n : Nat) (l : List RowData), l.length ≤ n → (batchesGo n l).flatten = l := by
  intro n
  induction n with
  | zero =>
    intro l h
    rw [List.length_eq_zero.1 (Nat.le_zero.1 h)]
    rfl
  | succ n ih =>
    intro l h
    rw [batchesGo]
    by_cases hl : l.isEmpty
    · rw [if_pos hl]
      rw [List.isEmpty_iff] at hl
      simp [hl]
    · rw [if_neg hl]
      have hne : l ≠ [] := by simpa [List.isEmpty_iff] using hl
      have hpos : 0 < l.length := List.length_pos.2 hne
      rw [List.flatten_cons, ih (l.drop 50) (by rw [List.length_drop]; omega)]
      exact List.take_append_drop 50 l

theorem sheetBatches_join (l : List RowData) : (sheetBatches l).flatten = l :=
  batchesGo_join l.length l le_rfl

theorem sheetBatches_nil : sheetBatches [] = [] := rfl

theorem applySheet_stepStore (env : SheetEnv E) (phone : String) (rows : List RowData)
    (existing : List (StoredChunk E)) (st : Store E) :
    (stepStore (applySheet env phone rows existing st)).sheetMappings = st.sheetMappings ∧
    (stepStore (applySheet env phone rows existing st)).docMappings = st.docMappings := by
  rw [applySheet]
  cases hdel : sheetDeletePhase env.deleteOk (toDelete rows existing) st with
  | error e =>
    have := sheetDeletePhase_stepStore env.deleteOk (toDelete rows existing) st
    rw [hdel] at this
    exact this
  | ok st1 =>
    dsimp only
    have hd := sheetDeletePhase_stepStore env.deleteOk (toDelete rows existing) st
    rw [hdel] at hd
    simp only [stepStore_ok] at hd
    cases hupd : sheetUpdateGo env.embed env.updateOk existing (toUpdate rows existing) 0 st1 with
    | error e =>
      have hu := @sheetUpdateGo_stepStore E env.embed env.updateOk
        existing (toUpdate rows existing) 0 st1
      rw [hupd] at hu
      exact ⟨hu.1.trans hd.1, hu.2.trans hd.2⟩
    | ok st2 =>
      have hu := @sheetUpdateGo_stepStore E env.embed env.updateOk
        existing (toUpdate rows existing) 0 st1
      rw [hupd] at hu
      simp only [stepStore_ok] at hu
      have ha := @sheetAddGo_stepStore E env.embed env.insertOk
        phone (sheetBatches (toAdd rows existing)) 0 st2
      exact ⟨ha.1.trans (hu.1.trans hd.1), ha.2.trans (hu.2.trans hd.2)⟩

/-! ## Idempotence (C1) and hash uniqueness (C3) -/

theorem sheetDeletePhase_nil (dok : Bool) (st : Store E) :
    sheetDeletePhase dok ([] : List (StoredChunk E)) st = .ok st := by
  rw [sheetDeletePhase]
  simp

theorem sheetUpdateGo_nil {embed : String → Except String E} {updateOk : Nat → Bool}
    {existing : List (StoredChunk E)} (k : Nat) (st : Store E) :
    sheetUpdateGo embed updateOk existing [] k st = .ok st := rfl

theorem sheetAddGo_nil {embed : String → Except String E} {insertOk : Nat → Bool}
    {phone : String} (k : Nat) (st : Store E) :
    sheetAddGo embed insertOk phone [] k st = .ok st := rfl

theorem touchSheetMapping_chunks (st : Store E) (phone : String) (now cnt : Nat) :
    (touchSheetMapping st phone now cnt).chunks = st.chunks := rfl

theorem rowDataOf_consistent (hash : String → String) (values : List (List String)) :
    ∀ r ∈ rowDataOf hash values, r.hash = hash r.content := by
  intro r hr
  rw [rowDataOf] at hr
  rcases List.mem_filterMap.1 hr with ⟨row, _, hrow⟩
  by_cases hcond : jsTrim (flattenRow row) != ""
  · rw [if_pos hcond] at hrow
    cases hrow
    rfl
  · rw [if_neg hcond] at hrow
    cases hrow

/-- Success inversion for the sheet sync handler: a success response implies
that the select succeeded and the apply phase ran to completion. -/
theorem syncSheetPOST_success_inv {hash : String → String} {phone : String}
    {env : SheetEnv E} {st : Store E} {values : List (List String)}
    (hf : env.fetch = .ok values) (hlen : 1 < values.length)
    {t a d n : Nat} {st1 : Store E}
    (h : syncSheetPOST hash phone env st = (.success t a d n, st1)) :
    env.selectOk = true ∧
    ∃ st3, applySheet env phone (rowDataOf hash values)
        (selectChunks st phone "google_sheet") st = .ok st3 ∧
      st1 = (if env.metaOk then
        touchSheetMapping st3 phone env.now (rowDataOf hash values).length else st3) := by
  rw [syncSheetPOST, hf] at h
  dsimp only at h
  rw [if_neg (by omega)] at h
  by_cases hsel : env.selectOk
  · rw [if_pos hsel] at h
    refine ⟨hsel, ?_⟩
    cases happ : applySheet env phone (rowDataOf hash values)
        (selectChunks st phone "google_sheet") st with
    | error e => simp [happ] at h
    | ok st3 =>
      simp only [happ] at h
      refine ⟨st3, rfl, ?_⟩
      have := congrArg Prod.snd h
      simpa using this.symm
  · rw [if_neg hsel] at h
    simp at h

/-- Apply-phase inversion when `toUpdate` is empty: the final store is the
deleted store plus freshly embedded `toAdd` chunks. -/
theorem applySheet_ok_inv {env : SheetEnv E} {phone : String} {rows : List RowData}
    {existing : List (StoredChunk E)} {st st3 : Store E}
    (htU : toUpdate rows existing = [])
    (happ : applySheet env phone rows existing st = .ok st3) :
    ∃ es : List E, es.length = (toAdd rows existing).length ∧
      st3.chunks = (sheetDeleteApply st (toDelete rows existing)).chunks ++
        freshChunks phone "google_sheet" (sheetDeleteApply st (toDelete rows existing)).nextId
          ((toAdd rows existing).zip es) := by
  rw [applySheet] at happ
  cases hdel : sheetDeletePhase env.deleteOk (toDelete rows existing) st with
  | error e => simp [hdel] at happ
  | ok stD =>
    have hstD : stD = sheetDeleteApply st (toDelete rows existing) := sheetDeletePhase_ok hdel
    simp only [hdel] at happ
    rw [htU, sheetUpdateGo_nil] at happ
    simp only at happ
    rcases sheetAddGo_ok_shape (sheetBatches (toAdd rows existing)) 0 stD st3 happ with
      ⟨es, hlen, hch, _, _, _⟩
    rw [sheetBatches_join] at hlen hch
    exact ⟨es, hlen, by rw [hch, hstD]⟩

/-! ## Doc-route apply-phase infrastructure -/

theorem docAddGo_nil {embed : String → Except String E} {insertOk : Nat → Bool}
    {phone : String} (k : Nat) (st : Store E) :
    docAddGo embed insertOk phone [] k st = .ok st := rfl

theorem docUpdateGo_nil {embed : String → Except String E} {updateOk : Nat → Bool}
    {existing : List (StoredChunk E)} (k : Nat) (su : Store E × Nat) :
    docUpdateGo embed updateOk existing [] k su = .ok su := rfl

theorem touchDocMapping_chunks (st : Store E) (phone : String) (now cnt : Nat) :
    (touchDocMapping st phone now cnt).chunks = st.chunks := rfl

theorem mem_toUpdate_lookup {rows : List RowData} {existing : List (StoredChunk E)}
    {r : RowData} (hr : r ∈ toUpdate rows existing) :
    ∃ c, mapGetLast existing r.hash = some c ∧ c.content ≠ r.content := by
  rw [toUpdate, List.mem_filter] at hr
  rcases hr with ⟨_, hp⟩
  cases hm : mapGetLast existing r.hash with
  | none =>
    simp only [hm] at hp
    exact Bool.noConfusion hp
  | some c =>
    simp only [hm] at hp
    exact ⟨c, rfl, by simpa using hp⟩

theorem docAddGo_ok_shape {embed : String → Except String E} {insertOk : Nat → Bool}
    {phone : String} :
    ∀ (l : List RowData) (k : Nat) (st st' : Store E),
      docAddGo embed insertOk phone l k st = .ok st' →
      ∃ es : List E, es.length = l.length ∧
        st'.chunks = st.chunks ++ freshChunks phone "google_doc" st.nextId (l.zip es) ∧
        st'.nextId = st.nextId + l.length ∧
        st'.sheetMappings = st.sheetMappings ∧ st'.docMappings = st.docMappings := by
  intro l
  induction l with
  | nil =>
    intro k st st' h
    cases h
    exact ⟨[], by simp, by simp [freshChunks], by simp, rfl, rfl⟩
  | cons r rest ih =>
    intro k st st' h
    rw [docAddGo] at h
    cases he : embed r.content with
    | error m => simp [he] at h
    | ok e =>
      simp only [he] at h
      by_cases hok : insertOk k
      · rw [if_pos hok] at h
        rcases ih (k + 1) _ _ h with ⟨esr, hlen, hch, hnext, hsm, hdm⟩
        have h1 : (insertChunks st phone "google_doc" [(r, e)]).chunks =
            st.chunks ++ freshChunks phone "google_doc" st.nextId [(r, e)] := rfl
        have h2 : (insertChunks st phone "google_doc" [(r, e)]).nextId = st.nextId + 1 := rfl
        refine ⟨e :: esr, by simp [hlen], ?_, ?_, ?_, ?_⟩
        · rw [hch, h1, h2, List.append_assoc]
          have h3 : freshChunks phone "google_doc" st.nextId [(r, e)] ++
              freshChunks phone "google_doc" (st.nextId + 1) (rest.zip esr) =
              freshChunks phone "google_doc" st.nextId ((r, e) :: rest.zip esr) := rfl
          rw [h3]
          rfl
        · rw [hnext, h2]
          simp only [List.length_cons]
          omega
        · rw [hsm]; rfl
        · rw [hdm]; rfl
      · rw [if_neg hok] at h
        cases h

theorem docAddGo_ok_calls {embed : String → Except String E} {insertOk : Nat → Bool}
    {phone : String} :
    ∀ (l : List RowData) (k : Nat) (st st' : Store E),
      docAddGo embed insertOk phone l k st = .ok st' →
      (∀ r ∈ l, ∃ e, embed r.content = .ok e) ∧
      (∀ j, j < l.length → insertOk (k + j) = true) := by
  intro l
  induction l with
  | nil => intro k st st' _; exact ⟨by simp, by simp⟩
  | cons r rest ih =>
    intro k st st' h
    rw [docAddGo] at h
    cases he : embed r.content with
    | error m => simp [he] at h
    | ok e =>
      simp only [he] at h
      by_cases hok : insertOk k
      · rw [if_pos hok] at h
        rcases ih (k + 1) _ _ h with ⟨h1, h2⟩
        refine ⟨?_, ?_⟩
        · intro r' hr'
          rcases List.mem_cons.1 hr' with rfl | hr'
          · exact ⟨e, he⟩
          · exact h1 r' hr'
        · intro j hj
          cases j with
          | zero => simpa using hok
          | succ j =>
            have hgoal : k + (j + 1) = (k + 1) + j := by omega
            rw [hgoal]
            exact h2 j (by simpa using hj)
      · rw [if_neg hok] at h
        cases h

theorem docAddGo_error_mappings {embed : String → Except String E} {insertOk : Nat → Bool}
    {phone : String} :
    ∀ (l : List RowData) (k : Nat) (st : Store E) {e : Nat × String} {stF : Store E},
      docAddGo embed insertOk phone l k st = .error (e, stF) →
      stF.sheetMappings = st.sheetMappings ∧ stF.docMappings = st.docMappings := by
  intro l
  induction l with
  | nil => intro k st e stF h; cases h
  | cons r rest ih =>
    intro k st e stF h
    rw [docAddGo] at h
    cases he : embed r.content with
    | error m =>
      simp only [he] at h
      cases h
      exact ⟨rfl, rfl⟩
    | ok em =>
      simp only [he] at h
      by_cases hok : insertOk k
      · rw [if_pos hok] at h
        exact ih (k + 1) (insertChunks st phone "google_doc" [(r, em)]) h
      · rw [if_neg hok] at h
        cases h
        exact ⟨rfl, rfl⟩

theorem docAddGo_error_prefix {embed : String → Except String E} {insertOk : Nat → Bool}
    {phone : String} :
    ∀ (l : List RowData) (k : Nat) (st : Store E) {e : Nat × String} {stF : Store E},
      docAddGo embed insertOk phone l k st = .error (e, stF) →
      ∃ j, j ≤ l.length ∧ docAddGo embed insertOk phone (l.take j) k st = .ok stF := by
  intro l
  induction l with
  | nil => intro k st e stF h; cases h
  | cons r rest ih =>
    intro k st e stF h
    rw [docAddGo] at h
    cases he : embed r.content with
    | error m =>
      simp only [he] at h
      cases h
      exact ⟨0, by simp, rfl⟩
    | ok em =>
      simp only [he] at h
      by_cases hok : insertOk k
      · rw [if_pos hok] at h
        rcases ih (k + 1) _ h with ⟨j, hj, hpre⟩
        refine ⟨j + 1, by simpa using hj, ?_⟩
        rw [List.take_succ_cons, docAddGo]
        simp only [he]
        rw [if_pos hok]
        exact hpre
      · rw [if_neg hok] at h
        cases h
        exact ⟨0, by simp, rfl⟩

theorem docUpdateGo_ok_state {embed : String → Except String E} {updateOk : Nat → Bool}
    {existing : List (StoredChunk E)} :
    ∀ (tU : List RowData) (k : Nat) (st : Store E) (u : Nat) (st' : Store E) (u' : Nat),
      docUpdateGo embed updateOk existing tU k (st, u) = .ok (st', u') →
      st'.sheetMappings = st.sheetMappings ∧ st'.docMappings = st.docMappings ∧
      st'.nextId = st.nextId ∧ st'.chunks.map chunkKey = st.chunks.map chunkKey := by
  intro tU
  induction tU with
  | nil =>
    intro k st u st' u' h
    cases h
    exact ⟨rfl, rfl, rfl, rfl⟩
  | cons r rest ih =>
    intro k st u st' u' h
    rw [docUpdateGo] at h
    cases he : embed r.content with
    | error m => simp [he] at h
    | ok e =>
      simp only [he] at h
      cases hm : mapGetLast existing r.hash with
      | none =>
        simp only [hm] at h
        exact ih k st u st' u' h
      | some c =>
        simp only [hm] at h
        by_cases hok : updateOk k
        · rw [if_pos hok] at h
          rcases ih (k + 1) _ _ _ _ h with ⟨h1, h2, h3, h4⟩
          exact ⟨h1, h2, h3, by rw [h4, updateChunkById_keys]⟩
        · rw [if_neg hok] at h
          cases h

theorem docUpdateGo_ok_calls {embed : String → Except String E} {updateOk : Nat → Bool}
    {existing : List (StoredChunk E)} :
    ∀ (tU : List RowData) (k : Nat) (st : Store E) (u : Nat) (st' : Store E) (u' : Nat),
      (∀ r ∈ tU, (mapGetLast existing r.hash).isSome) →
      docUpdateGo embed updateOk existing tU k (st, u) = .ok (st', u') →
      (∀ r ∈ tU, ∃ e, embed r.content = .ok e) ∧
      (∀ j, j < tU.length → updateOk (k + j) = true) := by
  intro tU
  induction tU with
  | nil => intro k st u st' u' _ _; exact ⟨by simp, by simp⟩
  | cons r rest ih =>
    intro k st u st' u' hlook h
    rw [docUpdateGo] at h
    cases he : embed r.content with
    | error m => simp [he] at h
    | ok e =>
      simp only [he] at h
      cases hm : mapGetLast existing r.hash with
      | none =>
        have := hlook r (by simp)
        rw [hm] at this
        simp at this
      | some c =>
        simp only [hm] at h
        by_cases hok : updateOk k
        · rw [if_pos hok] at h
          rcases ih (k + 1) _ _ _ _ (fun r' hr' => hlook r' (by simp [hr'])) h with ⟨h1, h2⟩
          refine ⟨?_, ?_⟩
          · intro r' hr'
            rcases List.mem_cons.1 hr' with rfl | hr'
            · exact ⟨e, he⟩
            · exact h1 r' hr'
          · intro j hj
            cases j with
            | zero => simpa using hok
            | succ j =>
              have hgoal : k + (j + 1) = (k + 1) + j := by omega
              rw [hgoal]
              exact h2 j (by simpa using hj)
        · rw [if_neg hok] at h
          cases h

theorem docUpdateGo_error_mappings {embed : String → Except String E} {updateOk : Nat → Bool}
    {existing : List (StoredChunk E)} :
    ∀ (tU : List RowData) (k : Nat) (st : Store E) (u : Nat) {e : Nat × String} {stF : Store E},
      docUpdateGo embed updateOk existing tU k (st, u) = .error (e, stF) →
      stF.sheetMappings = st.sheetMappings ∧ stF.docMappings = st.docMappings := by
  intro tU
  induction tU with
  | nil => intro k st u e stF h; cases h
  | cons r rest ih =>
    intro k st u e stF h
    rw [docUpdateGo] at h
    cases he : embed r.content with
    | error m =>
      simp only [he] at h
      cases h
      exact ⟨rfl, rfl⟩
    | ok em =>
      simp only [he] at h
      cases hm : mapGetLast existing r.hash with
      | none =>
        simp only [hm] at h
        exact ih k st u h
      | some c =>
        simp only [hm] at h
        by_cases hok : updateOk k
        · rw [if_pos hok] at h
          exact ih (k + 1) (updateChunkById st c.id r.content em) (u + 1) h
        · rw [if_neg hok] at h
          cases h
          exact ⟨rfl, rfl⟩

theorem docUpdateGo_error_prefix {embed : String → Except String E} {updateOk : Nat → Bool}
    {existing : List (StoredChunk E)} :
    ∀ (tU : List RowData) (k : Nat) (st : Store E) (u : Nat) {e : Nat × String} {stF : Store E},
      docUpdateGo embed updateOk existing tU k (st, u) = .error (e, stF) →
      ∃ j u', j ≤ tU.length ∧
        docUpdateGo embed updateOk existing (tU.take j) k (st, u) = .ok (stF, u') := by
  intro tU
  induction tU with
  | nil => intro k st u e stF h; cases h
  | cons r rest ih =>
    intro k st u e stF h
    rw [docUpdateGo] at h
    cases he : embed r.content with
    | error m =>
      simp only [he] at h
      cases h
      exact ⟨0, u, by simp, rfl⟩
    | ok em =>
      simp only [he] at h
      cases hm : mapGetLast existing r.hash with
      | none =>
        simp only [hm] at h
        rcases ih k st u h with ⟨j, u', hj, hpre⟩
        refine ⟨j + 1, u', by simpa using hj, ?_⟩
        rw [List.take_succ_cons, docUpdateGo]
        simp only [he, hm]
        exact hpre
      | some c =>
        simp only [hm] at h
        by_cases hok : updateOk k
        · rw [if_pos hok] at h
          rcases ih (k + 1) _ _ h with ⟨j, u', hj, hpre⟩
          refine ⟨j + 1, u', by simpa using hj, ?_⟩
          rw [List.take_succ_cons, docUpdateGo]
          simp only [he, hm]
          rw [if_pos hok]
          exact hpre
        · rw [if_neg hok] at h
          cases h
          exact ⟨0, u, by simp, rfl⟩

theorem sheetUpdateGo_error_prefix {embed : String → Except String E} {updateOk : Nat → Bool}
    {existing : List (StoredChunk E)} :
    ∀ (tU : List RowData) (k : Nat) (st : Store E) {e : Nat × String} {stF : Store E},
      sheetUpdateGo embed updateOk existing tU k st = .error (e, stF) →
      ∃ j, j ≤ tU.length ∧ sheetUpdateGo embed updateOk existing (tU.take j) k st = .ok stF := by
  intro tU
  induction tU with
  | nil => intro k st e stF h; cases h
  | cons r rest ih =>
    intro k st e stF h
    rw [sheetUpdateGo] at h
    cases he : embed r.content with
    | error m =>
      simp only [he] at h
      cases h
      exact ⟨0, by simp, rfl⟩
    | ok em =>
      simp only [he] at h
      cases hm : mapGetLast existing r.hash with
      | none =>
        simp only [hm] at h
        cases h
        exact ⟨0, by simp, rfl⟩
      | some c =>
        simp only [hm] at h
        by_cases hok : updateOk k
        · rw [if_pos hok] at h
          rcases ih (k + 1) _ h with ⟨j, hj, hpre⟩
          refine ⟨j + 1, by simpa using hj, ?_⟩
          rw [List.take_succ_cons, sheetUpdateGo]
          simp only [he, hm]
          rw [if_pos hok]
          exact hpre
        · rw [if_neg hok] at h
          cases h
          exact ⟨0, by simp, rfl⟩

theorem sheetAddGo_error_prefix {embed : String → Except String E} {insertOk : Nat → Bool}
    {phone : String} :
    ∀ (bs : List (List RowData)) (k : Nat) (st : Store E) {e : Nat × String} {stF : Store E},
      sheetAddGo embed insertOk phone bs k st = .error (e, stF) →
      ∃ j, j ≤ bs.length ∧ sheetAddGo embed insertOk phone (bs.take j) k st = .ok stF := by
  intro bs
  induction bs with
  | nil => intro k st e stF h; cases h
  | cons b rest ih =>
    intro k st e stF h
    rw [sheetAddGo] at h
    cases he : embedAll embed b with
    | error m =>
      simp only [he] at h
      cases h
      exact ⟨0, by simp, rfl⟩
    | ok es =>
      simp only [he] at h
      by_cases hok : insertOk k
      · rw [if_pos hok] at h
        rcases ih (k + 1) _ h with ⟨j, hj, hpre⟩
        refine ⟨j + 1, by simpa using hj, ?_⟩
        rw [List.take_succ_cons, sheetAddGo]
        simp only [he]
        rw [if_pos hok]
        exact hpre
      · rw [if_neg hok] at h
        cases h
        exact ⟨0, by simp, rfl⟩

/-- The doc route builds its row list as `chunks.map(content => ({content,
hash}))`: each entry carries the fingerprint of its own content. -/
theorem docRows_consistent (hash : String → String) (chunks : List String) :
    ∀ r ∈ chunks.map (fun c => RowData.mk (hash c) c), r.hash = hash r.content := by
  intro r hr
  rcases List.mem_map.1 hr with ⟨c, _, rfl⟩
  rfl

theorem applyDoc_error_mappings {env : DocEnv E} {phone : String} {rows : List RowData}
    {existing : List (StoredChunk E)} {st : Store E} {e : Nat × String} {stF : Store E}
    (happ : applyDoc env phone rows existing st = .error (e, stF)) :
    stF.sheetMappings = st.sheetMappings ∧ stF.docMappings = st.docMappings := by
  rw [applyDoc] at happ
  cases hdel : sheetDeletePhase env.deleteOk (toDelete rows existing) st with
  | error ep =>
    simp only [hdel] at happ
    have hep : ep = (e, stF) := by injection happ
    subst hep
    have hms := sheetDeletePhase_stepStore env.deleteOk (toDelete rows existing) st
    rw [hdel] at hms
    exact hms
  | ok stD =>
    simp only [hdel] at happ
    have hd := sheetDeletePhase_stepStore env.deleteOk (toDelete rows existing) st
    rw [hdel] at hd
    simp only [stepStore_ok] at hd
    cases hadd : docAddGo env.embed env.insertOk phone (toAdd rows existing) 0 stD with
    | error ep =>
      simp only [hadd] at happ
      have hep : ep = (e, stF) := by injection happ
      subst hep
      have ha := docAddGo_error_mappings (toAdd rows existing) 0 stD hadd
      exact ⟨ha.1.trans hd.1, ha.2.trans hd.2⟩
    | ok st2 =>
      simp only [hadd] at happ
      rcases docAddGo_ok_shape _ 0 stD st2 hadd with ⟨_, _, _, _, hsm, hdm⟩
      have hu := docUpdateGo_error_mappings (toUpdate rows existing) 0 st2 0 happ
      exact ⟨hu.1.trans (hsm.trans hd.1), hu.2.trans (hdm.trans hd.2)⟩

/-- Apply-phase inversion for the doc sync when `toUpdate` is empty: the
update counter stays `0` and the final store is the deleted store plus
freshly embedded `toAdd` chunks. -/
theorem applyDoc_ok_inv {env : DocEnv E} {phone : String} {rows : List RowData}
    {existing : List (StoredChunk E)} {st st3 : Store E} {updated : Nat}
    (htU : toUpdate rows existing = [])
    (happ : applyDoc env phone rows existing st = .ok (st3, updated)) :
    updated = 0 ∧
    ∃ es : List E, es.length = (toAdd rows existing).length ∧
      st3.chunks = (sheetDeleteApply st (toDelete rows existing)).chunks ++
        freshChunks phone "google_doc" (sheetDeleteApply st (toDelete rows existing)).nextId
          ((toAdd rows existing).zip es) := by
  rw [applyDoc] at happ
  cases hdel : sheetDeletePhase env.deleteOk (toDelete rows existing) st with
  | error e => simp [hdel] at happ
  | ok stD =>
    have hstD : stD = sheetDeleteApply st (toDelete rows existing) := sheetDeletePhase_ok hdel
    simp only [hdel] at happ
    cases hadd : docAddGo env.embed env.insertOk phone (toAdd rows existing) 0 stD with
    | error e => simp [hadd] at happ
    | ok st2 =>
      simp only [hadd] at happ
      rw [htU, docUpdateGo_nil] at happ
      simp only [Except.ok.injEq, Prod.mk.injEq] at happ
      obtain ⟨rfl, rfl⟩ := happ
      rcases docAddGo_ok_shape _ 0 stD st2 hadd with ⟨es, hlen, hch, _, _, _⟩
      exact ⟨rfl, es, hlen, by rw [hch, hstD]⟩

/-- Success inversion for the doc sync handler: a success response on a
non-empty doc implies that the select succeeded and the apply phase ran to
completion. -/
theorem syncDocPOST_success_inv {hash : String → String} {phone : String}
    {env : DocEnv E} {st : Store E} {text : String} {chunks : List String}
    (hf : env.fetch = .ok text) (hne : text ≠ "")
    (hck : chunkText text 1600 200 = .ok chunks)
    {t a d u : Nat} {msg : String} {st1 : Store E}
    (h : syncDocPOST hash phone env st = (.success t a d u msg, st1)) :
    env.selectOk = true ∧
    ∃ st3 updated, applyDoc env phone (chunks.map fun c => RowData.mk (hash c) c)
        (selectChunks st phone "google_doc") st = .ok (st3, updated) ∧
      st1 = (if env.metaOk then touchDocMapping st3 phone env.now
        (chunks.map fun c => RowData.mk (hash c) c).length else st3) := by
  rw [syncDocPOST, hf] at h
  dsimp only at h
  rw [if_neg (by simp [hne])] at h
  simp only [hck] at h
  by_cases hsel : env.selectOk
  · rw [if_pos hsel] at h
    refine ⟨hsel, ?_⟩
    cases happ : applyDoc env phone (chunks.map fun c => RowData.mk (hash c) c)
        (selectChunks st phone "google_doc") st with
    | error e => simp [happ] at h
    | ok stu =>
      obtain ⟨st3, updated⟩ := stu
      simp only [happ] at h
      refine ⟨st3, updated, rfl, ?_⟩
      have := congrArg Prod.snd h
      simpa using this.symm
  · rw [if_neg hsel] at h
    simp at h

/-- Any error response of the doc sync leaves both stored mapping tables
untouched. -/
theorem syncDoc_failure_mappings (hash : String → String) (phone : String)
    (env : DocEnv E) (st : Store E) :
    ∀ res st', syncDocPOST hash phone env st = (res, st') →
      ∀ s m, res = .failure s m →
        st'.sheetMappings = st.sheetMappings ∧ st'.docMappings = st.docMappings := by
  intro res st' hrun s m hres
  subst hres
  rw [syncDocPOST] at hrun
  cases hf : env.fetch with
  | error code =>
    rw [hf] at hrun
    dsimp only at hrun
    by_cases h3 : code == 403
    · rw [if_pos h3] at hrun
      cases hrun
      exact ⟨rfl, rfl⟩
    · rw [if_neg h3] at hrun
      by_cases h4 : code == 404
      · rw [if_pos h4] at hrun
        cases hrun
        exact ⟨rfl, rfl⟩
      · rw [if_neg h4] at hrun
        cases hrun
        exact ⟨rfl, rfl⟩
  | ok text =>
    rw [hf] at hrun
    dsimp only at hrun
    by_cases hempty : (text == "") = true
    · rw [if_pos hempty] at hrun
      simp at hrun
    · rw [if_neg hempty] at hrun
      cases hck : chunkText text 1600 200 with
      | error m2 =>
        simp only [hck] at hrun
        cases hrun
        exact ⟨rfl, rfl⟩
      | ok chunks =>
        simp only [hck] at hrun
        by_cases hsel : env.selectOk
        · rw [if_pos hsel] at hrun
          cases happ : applyDoc env phone (chunks.map fun c => RowData.mk (hash c) c)
              (selectChunks st phone "google_doc") st with
          | error ep =>
            rw [happ] at hrun
            dsimp only at hrun
            have hms := applyDoc_error_mappings happ
            cases hrun
            exact hms
          | ok stu =>
            rw [happ] at hrun
            simp at hrun
        · rw [if_neg hsel] at hrun
          cases hrun
          exact ⟨rfl, rfl⟩

/-- Core of the idempotence development, shared by both routes: when a
partition is reshaped into "survivors of the delete step plus fresh `toAdd`
chunks", re-reconciling the same rows against it finds nothing to do.
Hypotheses: injective fingerprint, pairwise-distinct stored ids, and
fingerprint-consistency of both the old partition and the fetched rows. -/
theorem reconcile_empty_of_fresh (hash : String → String) (phone source : String)
    (rows : List RowData) (st0 st1 : Store E) (es : List E)
    (hinj : Function.Injective hash)
    (hids : (st0.chunks.map (·.id)).Nodup)
    (hfp : ∀ c ∈ selectChunks st0 phone source, c.row_hash = hash c.content)
    (hrows : ∀ r ∈ rows, r.hash = hash r.content)
    (hlenes : es.length = (toAdd rows (selectChunks st0 phone source)).length)
    (hch : st1.chunks =
      (sheetDeleteApply st0 (toDelete rows (selectChunks st0 phone source))).chunks ++
      freshChunks phone source
        (sheetDeleteApply st0 (toDelete rows (selectChunks st0 phone source))).nextId
        ((toAdd rows (selectChunks st0 phone source)).zip es)) :
    toAdd rows (selectChunks st1 phone source) = [] ∧
    toUpdate rows (selectChunks st1 phone source) = [] ∧
    toDelete rows (selectChunks st1 phone source) = [] := by
  -- the partition after the successful first run
  have hP1 : selectChunks st1 phone source =
      (selectChunks st0 phone source).filter
        (fun c => !(((toDelete rows
          (selectChunks st0 phone source)).map (·.id)).contains c.id)) ++
      freshChunks phone source
        (sheetDeleteApply st0 (toDelete rows
          (selectChunks st0 phone source))).nextId
        ((toAdd rows (selectChunks st0 phone source)).zip es) := by
    rw [selectChunks, hch, List.filter_append]
    congr 1
    · rw [sheetDeleteApply_chunks, List.filter_filter, selectChunks, List.filter_filter]
      apply List.filter_congr
      intro c _
      rw [Bool.and_comm]
    · rw [List.filter_eq_self]
      intro c hc
      rcases freshChunks_mem phone source _ _ c hc with ⟨_, _, hph, hsrc, _, _, _⟩
      simp [hph, hsrc]
  -- membership facts for the new partition
  have hmemP1 : ∀ c, c ∈ selectChunks st1 phone source ↔
      ((c ∈ selectChunks st0 phone source ∧
        ¬ c.id ∈ (toDelete rows
          (selectChunks st0 phone source)).map (·.id)) ∨
       c ∈ freshChunks phone source
        (sheetDeleteApply st0 (toDelete rows
          (selectChunks st0 phone source))).nextId
        ((toAdd rows (selectChunks st0 phone source)).zip es)) := by
    intro c
    rw [hP1, List.mem_append, List.mem_filter]
    simp
  -- (1) every chunk of the new partition carries a current hash
  have hcur : ∀ c ∈ selectChunks st1 phone source,
      c.row_hash ∈ currentHashes rows := by
    intro c hc
    rcases (hmemP1 c).1 hc with ⟨hc0, hnid⟩ | hfresh
    · by_contra hnot
      exact hnid (List.mem_map_of_mem _ (mem_toDelete.2 ⟨hc0, hnot⟩))
    · rcases freshChunks_mem phone source _ _ c hfresh with
        ⟨re, hre, _, _, hhash, _, _⟩
      have hmem := (List.of_mem_zip hre).1
      have : re.1 ∈ rows := (List.mem_filter.1 hmem).1
      rw [hhash]
      exact List.mem_map_of_mem _ this
  -- (2) every current hash occurs in the new partition
  have hhas : ∀ r ∈ rows,
      r.hash ∈ existingHashes (selectChunks st1 phone source) := by
    intro r hr
    by_cases hin : r.hash ∈ existingHashes (selectChunks st0 phone source)
    · rcases List.mem_map.1 hin with ⟨c, hc, hch2⟩
      have hnid : ¬ c.id ∈ (toDelete rows
          (selectChunks st0 phone source)).map (·.id) := by
        intro hid
        rcases List.mem_map.1 hid with ⟨dchunk, hd, hdid⟩
        have hdmem : dchunk ∈ st0.chunks :=
          (List.mem_filter.1 (mem_toDelete.1 hd).1).1
        have hcmem : c ∈ st0.chunks := (List.mem_filter.1 hc).1
        have : dchunk = c := List.inj_on_of_nodup_map hids hdmem hcmem hdid
        subst this
        exact (mem_toDelete.1 hd).2 (hch2 ▸ List.mem_map_of_mem _ hr)
      exact List.mem_map.2 ⟨c, (hmemP1 c).2 (Or.inl ⟨hc, hnid⟩), hch2⟩
    · have hrA : r ∈ toAdd rows (selectChunks st0 phone source) :=
        mem_toAdd.2 ⟨hr, hin⟩
      rcases zip_mem_left _ es hlenes r hrA with ⟨e, he⟩
      rcases freshChunks_exists_of_mem phone source _
        (sheetDeleteApply st0 (toDelete rows
          (selectChunks st0 phone source))).nextId (r, e) he with ⟨c, hc, hch2, _⟩
      exact List.mem_map.2 ⟨c, (hmemP1 c).2 (Or.inr hc), hch2⟩
  -- (3) the new partition is fingerprint-consistent
  have hfp1 : ∀ c ∈ selectChunks st1 phone source,
      c.row_hash = hash c.content := by
    intro c hc
    rcases (hmemP1 c).1 hc with ⟨hc0, _⟩ | hfresh
    · exact hfp c hc0
    · rcases freshChunks_mem phone source _ _ c hfresh with
        ⟨re, hre, _, _, hhash, hcont, _⟩
      have hmem := (List.of_mem_zip hre).1
      have hr : re.1 ∈ rows := (List.mem_filter.1 hmem).1
      rw [hhash, hcont]
      exact hrows re.1 hr
  -- the second reconciliation is empty
  have htA2 : toAdd rows (selectChunks st1 phone source) = [] := by
    rw [toAdd, List.filter_eq_nil_iff]
    intro r hr
    simp [hhas r hr]
  have htD2 : toDelete rows (selectChunks st1 phone source) = [] := by
    rw [toDelete, List.filter_eq_nil_iff]
    intro c hc
    simp [hcur c hc]
  have htU2 : toUpdate rows (selectChunks st1 phone source) = [] :=
    toUpdate_eq_nil_of_consistent hash _ _ hrows hfp1 (fun r _ c _ hh => hinj hh)
  exact ⟨htA2, htU2, htD2⟩

/-- Idempotence of the sheet route (helper for the combined idempotence
theorem): if a sheet sync succeeds and the sheet content is unchanged, the
repeated sync reconciles nothing and leaves the chunk set unchanged. -/
theorem syncSheet_idempotent_aux (hash : String → String) (phone : String)
    (values : List (List String)) (env1 env2 : SheetEnv E) (st0 st1 : Store E)
    (hinj : Function.Injective hash)
    (hids : (st0.chunks.map (·.id)).Nodup)
    (hfp : ∀ c ∈ selectChunks st0 phone "google_sheet", c.row_hash = hash c.content)
    (hf1 : env1.fetch = .ok values) (hlen : 1 < values.length)
    (t a d n : Nat)
    (h1 : syncSheetPOST hash phone env1 st0 = (.success t a d n, st1))
    (hf2 : env2.fetch = .ok values) (hsel2 : env2.selectOk = true) :
    toAdd (rowDataOf hash values) (selectChunks st1 phone "google_sheet") = [] ∧
    toUpdate (rowDataOf hash values) (selectChunks st1 phone "google_sheet") = [] ∧
    toDelete (rowDataOf hash values) (selectChunks st1 phone "google_sheet") = [] ∧
    ∃ st2, syncSheetPOST hash phone env2 st1 =
        (.success (rowDataOf hash values).length 0 0 env2.now, st2) ∧
      st2.chunks = st1.chunks := by
  have hrows := rowDataOf_consistent hash values
  have htU : toUpdate (rowDataOf hash values) (selectChunks st0 phone "google_sheet") = [] :=
    toUpdate_eq_nil_of_consistent hash _ _ hrows hfp (fun r _ c _ hh => hinj hh)
  rcases syncSheetPOST_success_inv hf1 hlen h1 with ⟨hsel1, st3, happ, hst1⟩
  rcases applySheet_ok_inv htU happ with ⟨es, hlenes, hch3⟩
  have hst1c : st1.chunks = st3.chunks := by
    rw [hst1]
    split <;> rfl
  rcases reconcile_empty_of_fresh hash phone "google_sheet" (rowDataOf hash values)
      st0 st1 es hinj hids hfp hrows hlenes (hst1c.trans hch3) with ⟨htA2, htU2, htD2⟩
  refine ⟨htA2, htU2, htD2, ?_⟩
  -- evaluate the second run
  rw [syncSheetPOST, hf2]
  dsimp only
  rw [if_neg (by omega), if_pos hsel2]
  have happ2 : applySheet env2 phone (rowDataOf hash values)
      (selectChunks st1 phone "google_sheet") st1 = .ok st1 := by
    rw [applySheet, htD2, sheetDeletePhase_nil]
    simp only
    rw [htU2, sheetUpdateGo_nil]
    simp only
    rw [htA2, sheetBatches_nil, sheetAddGo_nil]
  rw [happ2]
  simp only [htA2, htD2, List.length_nil]
  by_cases hm : env2.metaOk
  · rw [if_pos hm]
    exact ⟨_, rfl, touchSheetMapping_chunks st1 phone env2.now _⟩
  · rw [if_neg hm]
    exact ⟨st1, rfl, rfl⟩

/-- Idempotence of the doc route (helper for the combined idempotence
theorem): if a doc sync succeeds and the doc text is unchanged, the repeated
sync reconciles nothing, reports zero added, deleted **and updated** chunks,
and leaves the chunk set unchanged. -/
theorem syncDoc_idempotent_aux (hash : String → String) (phone : String)
    (text : String) (chunks : List String) (env1 env2 : DocEnv E) (st0 st1 : Store E)
    (hinj : Function.Injective hash)
    (hids : (st0.chunks.map (·.id)).Nodup)
    (hfp : ∀ c ∈ selectChunks st0 phone "google_doc", c.row_hash = hash c.content)
    (hf1 : env1.fetch = .ok text) (hne : text ≠ "")
    (hck : chunkText text 1600 200 = .ok chunks)
    (t a d u : Nat) (msg : String)
    (h1 : syncDocPOST hash phone env1 st0 = (.success t a d u msg, st1))
    (hf2 : env2.fetch = .ok text) (hsel2 : env2.selectOk = true) :
    toAdd (chunks.map fun c => RowData.mk (hash c) c)
      (selectChunks st1 phone "google_doc") = [] ∧
    toUpdate (chunks.map fun c => RowData.mk (hash c) c)
      (selectChunks st1 phone "google_doc") = [] ∧
    toDelete (chunks.map fun c => RowData.mk (hash c) c)
      (selectChunks st1 phone "google_doc") = [] ∧
    ∃ st2, syncDocPOST hash phone env2 st1 =
        (.success (chunks.map fun c => RowData.mk (hash c) c).length 0 0 0
          "Google Doc synced successfully", st2) ∧
      st2.chunks = st1.chunks := by
  have hrows := docRows_consistent hash chunks
  have htU : toUpdate (chunks.map fun c => RowData.mk (hash c) c)
      (selectChunks st0 phone "google_doc") = [] :=
    toUpdate_eq_nil_of_consistent hash _ _ hrows hfp (fun r _ c _ hh => hinj hh)
  rcases syncDocPOST_success_inv hf1 hne hck h1 with ⟨hsel1, st3, updated, happ, hst1⟩
  rcases applyDoc_ok_inv htU happ with ⟨hu0, es, hlenes, hch3⟩
  have hst1c : st1.chunks = st3.chunks := by
    rw [hst1]
    split <;> rfl
  rcases reconcile_empty_of_fresh hash phone "google_doc"
      (chunks.map fun c => RowData.mk (hash c) c) st0 st1 es hinj hids hfp hrows hlenes
      (hst1c.trans hch3) with ⟨htA2, htU2, htD2⟩
  refine ⟨htA2, htU2, htD2, ?_⟩
  -- evaluate the second run
  rw [syncDocPOST, hf2]
  dsimp only
  rw [if_neg (by simp [hne])]
  simp only [hck]
  rw [if_pos hsel2]
  have happ2 : applyDoc env2 phone (chunks.map fun c => RowData.mk (hash c) c)
      (selectChunks st1 phone "google_doc") st1 = .ok (st1, 0) := by
    rw [applyDoc, htD2, sheetDeletePhase_nil]
    simp only
    rw [htA2, docAddGo_nil]
    simp only
    rw [htU2, docUpdateGo_nil]
  rw [happ2]
  simp only [htA2, htD2, List.length_nil]
  by_cases hm : env2.metaOk
  · rw [if_pos hm]
    exact ⟨_, rfl, touchDocMapping_chunks st1 phone env2.now _⟩
  · rw [if_neg hm]
    exact ⟨st1, rfl, rfl⟩

/-- C1.  Idempotence, for both sync routes: if a sync succeeds and the source
content is unchanged, the immediately repeated sync computes `toAdd`,
`toUpdate` and `toDelete` all empty, reports zero added and deleted rows (the
sheet handler keeps no separate updated count precisely because `toUpdate` is
empty; the doc handler reports `updated = 0`), and leaves the stored chunk
set unchanged.  Hypotheses: the fingerprint is injective (no SHA-256
collision), the stored ids are pairwise distinct (primary key), and every
stored chunk of the partition carries the fingerprint of its own content
(the invariant every insert of these handlers establishes). -/
theorem sync_idempotent :
    (∀ (E : Type) (hash : String → String) (phone : String)
        (values : List (List String)) (env1 env2 : SheetEnv E) (st0 st1 : Store E),
      Function.Injective hash →
      (st0.chunks.map (·.id)).Nodup →
      (∀ c ∈ selectChunks st0 phone "google_sheet", c.row_hash = hash c.content) →
      env1.fetch = .ok values → 1 < values.length →
      ∀ (t a d n : Nat),
      syncSheetPOST hash phone env1 st0 = (.success t a d n, st1) →
      env2.fetch = .ok values → env2.selectOk = true →
      toAdd (rowDataOf hash values) (selectChunks st1 phone "google_sheet") = [] ∧
      toUpdate (rowDataOf hash values) (selectChunks st1 phone "google_sheet") = [] ∧
      toDelete (rowDataOf hash values) (selectChunks st1 phone "google_sheet") = [] ∧
      ∃ st2, syncSheetPOST hash phone env2 st1 =
          (.success (rowDataOf hash values).length 0 0 env2.now, st2) ∧
        st2.chunks = st1.chunks) ∧
    (∀ (E : Type) (hash : String → String) (phone : String)
        (text : String) (chunks : List String) (env1 env2 : DocEnv E) (st0 st1 : Store E),
      Function.Injective hash →
      (st0.chunks.map (·.id)).Nodup →
      (∀ c ∈ selectChunks st0 phone "google_doc", c.row_hash = hash c.content) →
      env1.fetch = .ok text → text ≠ "" →
      chunkText text 1600 200 = .ok chunks →
      ∀ (t a d u : Nat) (msg : String),
      syncDocPOST hash phone env1 st0 = (.success t a d u msg, st1) →
      env2.fetch = .ok text → env2.selectOk = true →
      toAdd (chunks.map fun c => RowData.mk (hash c) c)
        (selectChunks st1 phone "google_doc") = [] ∧
      toUpdate (chunks.map fun c => RowData.mk (hash c) c)
        (selectChunks st1 phone "google_doc") = [] ∧
      toDelete (chunks.map fun c => RowData.mk (hash c) c)
        (selectChunks st1 phone "google_doc") = [] ∧
      ∃ st2, syncDocPOST hash phone env2 st1 =
          (.success (chunks.map fun c => RowData.mk (hash c) c).length 0 0 0
            "Google Doc synced successfully", st2) ∧
        st2.chunks = st1.chunks) :=
  ⟨fun _ hash phone values env1 env2 st0 st1 hinj hids hfp hf1 hlen t a d n h1 hf2 hsel2 =>
    syncSheet_idempotent_aux hash phone values env1 env2 st0 st1 hinj hids hfp hf1 hlen
      t a d n h1 hf2 hsel2,
   fun _ hash phone text chunks env1 env2 st0 st1 hinj hids hfp hf1 hne hck t a d u msg
      h1 hf2 hsel2 =>
    syncDoc_idempotent_aux hash phone text chunks env1 env2 st0 st1 hinj hids hfp hf1 hne
      hck t a d u msg h1 hf2 hsel2⟩

/-- Witness for C1: a first sync of the sheet `[["h"], ["a"]]` (resp. the doc
text `"hello"`) from the empty store, then a repeated sync on each route. -/
theorem sync_idempotent_witness :
    (toAdd (rowDataOf exHash [["h"], ["a"]]) (selectChunks exSt1 "p" "google_sheet") = [] ∧
     toUpdate (rowDataOf exHash [["h"], ["a"]]) (selectChunks exSt1 "p" "google_sheet") = [] ∧
     toDelete (rowDataOf exHash [["h"], ["a"]]) (selectChunks exSt1 "p" "google_sheet") = [] ∧
     ∃ st2, syncSheetPOST exHash "p" exEnv2 exSt1 =
         (.success (rowDataOf exHash [["h"], ["a"]]).length 0 0 exEnv2.now, st2) ∧
       st2.chunks = exSt1.chunks) ∧
    (toAdd (["hello"].map fun c => RowData.mk (exHash c) c)
       (selectChunks exDocSt1 "p" "google_doc") = [] ∧
     toUpdate (["hello"].map fun c => RowData.mk (exHash c) c)
       (selectChunks exDocSt1 "p" "google_doc") = [] ∧
     toDelete (["hello"].map fun c => RowData.mk (exHash c) c)
       (selectChunks exDocSt1 "p" "google_doc") = [] ∧
     ∃ st2, syncDocPOST exHash "p" exDocEnv2 exDocSt1 =
         (.success ((["hello"].map fun c => RowData.mk (exHash c) c)).length 0 0 0
           "Google Doc synced successfully", st2) ∧
       st2.chunks = exDocSt1.chunks) :=
  ⟨sync_idempotent.1 Nat exHash "p" [["h"], ["a"]] exEnv1 exEnv2 exSt0 exSt1
     (fun _ _ h => h) (by decide) (by decide) rfl (by decide) 1 1 0 5 (by decide) rfl rfl,
   sync_idempotent.2 Nat exHash "p" "hello" ["hello"] exDocEnv1 exDocEnv2 exSt0 exDocSt1
     (fun _ _ h => h) (by decide) (by decide) rfl (by decide) rfl 1 1 0 0
     "Google Doc synced successfully" (by decide) rfl rfl⟩

/-! ## Hash uniqueness within a partition (C3) -/


/-- C3 counterexample: syncing a sheet whose two data rows have equal content
(`"a"` twice) from the empty store stores **two** chunk rows with the same
hash in the `(p, google_sheet)` partition — they are not collapsed into one
logical chunk. -/
theorem hash_unique_counterexample :
    (selectChunks (syncSheetPOST exHash "p" exEnvDup exSt0).2 "p" "google_sheet").map
        (·.row_hash) = ["a", "a"] ∧
    ¬ ((selectChunks (syncSheetPOST exHash "p" exEnvDup exSt0).2 "p" "google_sheet").map
        (·.row_hash)).Nodup ∧
    (syncSheetPOST exHash "p" exEnvDup exSt0).1 = .success 2 2 0 0 := by
  refine ⟨by decide, ?_, by decide⟩
  intro hn
  have : ((["a", "a"] : List String)).Nodup := by
    have he : (selectChunks (syncSheetPOST exHash "p" exEnvDup exSt0).2 "p"
        "google_sheet").map (·.row_hash) = ["a", "a"] := by decide
    exact he ▸ hn
  simp at this

theorem freshChunks_map_hash (phone source : String) :
    ∀ (z : List (RowData × E)) (n : Nat),
      (freshChunks phone source n z).map (·.row_hash) = z.map (·.1.hash) := by
  intro z
  induction z with
  | nil => intro n; rfl
  | cons re rest ih =>
    intro n
    cases re with
    | mk r e =>
      rw [freshChunks, List.map_cons, List.map_cons, ih]

theorem filter_hash_of_keys_eq {l1 l2 : List (StoredChunk E)}
    (phone source : String) :
    l1.map chunkKey = l2.map chunkKey →
    (l1.filter (fun c => c.phone_number == phone && c.source == source)).map (·.row_hash) =
      (l2.filter (fun c => c.phone_number == phone && c.source == source)).map (·.row_hash) := by
  induction l1 generalizing l2 with
  | nil =>
    intro hk
    have hnil : l2 = [] := by simpa using hk.symm
    subst hnil
    rfl
  | cons c1 t1 ih =>
    intro hk
    cases l2 with
    | nil => simp [chunkKey] at hk
    | cons c2 t2 =>
      rw [List.map_cons, List.map_cons] at hk
      have hhead : chunkKey c1 = chunkKey c2 := (List.cons.injEq _ _ _ _ ▸ hk).1
      have htail : t1.map chunkKey = t2.map chunkKey := (List.cons.injEq _ _ _ _ ▸ hk).2
      rcases Prod.mk.injEq .. ▸ hhead with ⟨hid, hrest⟩
      rcases Prod.mk.injEq .. ▸ hrest with ⟨hph, hrest2⟩
      rcases Prod.mk.injEq .. ▸ hrest2 with ⟨hsrc, hhash⟩
      rw [List.filter_cons, List.filter_cons, hph, hsrc]
      by_cases hp : (c2.phone_number == phone && c2.source == source)
      · rw [if_pos hp, if_pos hp, List.map_cons, List.map_cons, hhash, ih htail]
      · rw [if_neg hp, if_neg hp, ih htail]

/-- Core of the hash-uniqueness development, shared by both routes: when the
final chunk table agrees (up to in-place content updates, which never touch
`chunkKey`) with "survivors of the delete step plus fresh `toAdd` chunks",
the partition's hash list stays duplicate-free. -/
theorem hash_nodup_core (phone source : String) (rows : List RowData)
    (st0 st1 : Store E) (es : List E) (n : Nat)
    (hcur : (currentHashes rows).Nodup)
    (hex : (existingHashes (selectChunks st0 phone source)).Nodup)
    (hlenes : es.length = (toAdd rows (selectChunks st0 phone source)).length)
    (hkeys : st1.chunks.map chunkKey =
      ((sheetDeleteApply st0 (toDelete rows (selectChunks st0 phone source))).chunks ++
        freshChunks phone source n
          ((toAdd rows (selectChunks st0 phone source)).zip es)).map chunkKey) :
    (existingHashes (selectChunks st1 phone source)).Nodup := by
  have hhashes : existingHashes (selectChunks st1 phone source) =
      ((sheetDeleteApply st0 (toDelete rows (selectChunks st0 phone source))).chunks.filter
        (fun c => c.phone_number == phone && c.source == source)).map (·.row_hash)
      ++ (toAdd rows (selectChunks st0 phone source)).map (·.hash) := by
    rw [existingHashes, selectChunks, filter_hash_of_keys_eq phone source hkeys,
      List.filter_append, List.map_append]
    congr 1
    rw [List.filter_eq_self.2, freshChunks_map_hash]
    · have hfst : ((toAdd rows (selectChunks st0 phone source)).zip es).map (·.1.hash) =
          (((toAdd rows (selectChunks st0 phone source)).zip es).map Prod.fst).map
            (·.hash) := by
        rw [List.map_map]
        rfl
      rw [hfst, List.map_fst_zip _ _ (by omega)]
    · intro c hc
      rcases freshChunks_mem phone source _ _ c hc with ⟨_, _, hph, hsrc, _, _, _⟩
      simp [hph, hsrc]
  rw [hhashes, List.nodup_append]
  refine ⟨?_, ?_, ?_⟩
  · -- survivors: a sublist of the old partition hash list
    have hsub : ((sheetDeleteApply st0 (toDelete rows
        (selectChunks st0 phone source))).chunks.filter
          (fun c => c.phone_number == phone && c.source == source)).map
          (·.row_hash) |>.Sublist
        (existingHashes (selectChunks st0 phone source)) := by
      rw [sheetDeleteApply_chunks, existingHashes, selectChunks]
      exact List.Sublist.map _ (List.Sublist.filter _ (List.filter_sublist _))
    exact List.Nodup.sublist hsub hex
  · -- fresh chunks: a sublist of the (pairwise distinct) current hashes
    have hsub : ((toAdd rows (selectChunks st0 phone source)).map (·.hash)).Sublist
        (currentHashes rows) := by
      rw [toAdd, currentHashes]
      exact List.Sublist.map _ (List.filter_sublist _)
    exact List.Nodup.sublist hsub hcur
  · -- disjoint: a freshly added hash was absent from the old partition
    intro x hx hx2
    have hx0 : x ∈ existingHashes (selectChunks st0 phone source) := by
      rw [sheetDeleteApply_chunks] at hx
      rcases List.mem_map.1 hx with ⟨c, hc, rfl⟩
      rcases List.mem_filter.1 hc with ⟨hc1, hp⟩
      rcases List.mem_filter.1 hc1 with ⟨hc2, _⟩
      exact List.mem_map_of_mem _ (List.mem_filter.2 ⟨hc2, hp⟩)
    exact (mem_hashes_toAdd.1 hx2).2 hx0

/-- Hash-uniqueness preservation on the sheet route (helper for the combined
theorem). -/
theorem hash_unique_preserved_sheet (hash : String → String) (phone : String)
    (values : List (List String)) (env : SheetEnv E) (st0 st1 : Store E)
    (hcur : (currentHashes (rowDataOf hash values)).Nodup)
    (hex : (existingHashes (selectChunks st0 phone "google_sheet")).Nodup)
    (hf : env.fetch = .ok values) (hlen : 1 < values.length)
    (t a d n : Nat)
    (h1 : syncSheetPOST hash phone env st0 = (.success t a d n, st1)) :
    (existingHashes (selectChunks st1 phone "google_sheet")).Nodup := by
  rcases syncSheetPOST_success_inv hf hlen h1 with ⟨hsel, st3, happ, hst1⟩
  have hst1c : st1.chunks = st3.chunks := by
    rw [hst1]
    split <;> rfl
  rw [applySheet] at happ
  cases hdel : sheetDeletePhase env.deleteOk
      (toDelete (rowDataOf hash values) (selectChunks st0 phone "google_sheet")) st0 with
  | error e => simp [hdel] at happ
  | ok stD =>
    have hstD : stD = sheetDeleteApply st0
        (toDelete (rowDataOf hash values) (selectChunks st0 phone "google_sheet")) :=
      sheetDeletePhase_ok hdel
    simp only [hdel] at happ
    cases hupd : sheetUpdateGo env.embed env.updateOk
        (selectChunks st0 phone "google_sheet")
        (toUpdate (rowDataOf hash values) (selectChunks st0 phone "google_sheet")) 0 stD with
    | error e => simp [hupd] at happ
    | ok stU =>
      simp only [hupd] at happ
      have hkk := (sheetUpdateGo_ok_state _ 0 stD stU hupd).2.2.2
      rcases sheetAddGo_ok_shape _ 0 stU st3 happ with ⟨es, hlenes, hch, _, _, _⟩
      rw [sheetBatches_join] at hlenes hch
      apply hash_nodup_core phone "google_sheet" (rowDataOf hash values) st0 st1 es
        stU.nextId hcur hex hlenes
      rw [hst1c, hch, List.map_append, List.map_append, hkk, hstD]

/-- Hash-uniqueness preservation on the doc route (helper for the combined
theorem): the doc route's apply phase inserts `toAdd` chunks one by one, then
runs in-place updates, which never touch `chunkKey`. -/
theorem hash_unique_preserved_doc (hash : String → String) (phone : String)
    (text : String) (chunks : List String) (env : DocEnv E) (st0 st1 : Store E)
    (hcur : (currentHashes (chunks.map fun c => RowData.mk (hash c) c)).Nodup)
    (hex : (existingHashes (selectChunks st0 phone "google_doc")).Nodup)
    (hf : env.fetch = .ok text) (hne : text ≠ "")
    (hck : chunkText text 1600 200 = .ok chunks)
    (t a d u : Nat) (msg : String)
    (h1 : syncDocPOST hash phone env st0 = (.success t a d u msg, st1)) :
    (existingHashes (selectChunks st1 phone "google_doc")).Nodup := by
  rcases syncDocPOST_success_inv hf hne hck h1 with ⟨hsel, st3, updated, happ, hst1⟩
  have hst1c : st1.chunks = st3.chunks := by
    rw [hst1]
    split <;> rfl
  rw [applyDoc] at happ
  cases hdel : sheetDeletePhase env.deleteOk
      (toDelete (chunks.map fun c => RowData.mk (hash c) c)
        (selectChunks st0 phone "google_doc")) st0 with
  | error e => simp [hdel] at happ
  | ok stD =>
    have hstD : stD = sheetDeleteApply st0
        (toDelete (chunks.map fun c => RowData.mk (hash c) c)
          (selectChunks st0 phone "google_doc")) :=
      sheetDeletePhase_ok hdel
    simp only [hdel] at happ
    cases hadd : docAddGo env.embed env.insertOk phone
        (toAdd (chunks.map fun c => RowData.mk (hash c) c)
          (selectChunks st0 phone "google_doc")) 0 stD with
    | error e => simp [hadd] at happ
    | ok st2 =>
      simp only [hadd] at happ
      have hkk := (docUpdateGo_ok_state _ 0 st2 0 st3 updated happ).2.2.2
      rcases docAddGo_ok_shape _ 0 stD st2 hadd with ⟨es, hlenes, hch, _, _, _⟩
      apply hash_nodup_core phone "google_doc"
        (chunks.map fun c => RowData.mk (hash c) c) st0 st1 es stD.nextId hcur hex hlenes
      rw [hst1c, hkk, hch, hstD]

/-- C3 (amended).  Hash uniqueness is preserved rather than established, on
both sync routes: after a successful sync, each hash identifies at most one
stored chunk of the partition **provided** the fetched rows/chunks carry
pairwise-distinct hashes and the partition satisfied the uniqueness before
the sync.  Two rows (or two doc chunks) of equal content inside one fetch
are both persisted (see the counterexample): the handlers deduplicate only
against already-stored hashes, and the `chunks` table has no uniqueness
constraint. -/
theorem hash_unique_preserved :
    (∀ (E : Type) (hash : String → String) (phone : String)
        (values : List (List String)) (env : SheetEnv E) (st0 st1 : Store E),
      (currentHashes (rowDataOf hash values)).Nodup →
      (existingHashes (selectChunks st0 phone "google_sheet")).Nodup →
      env.fetch = .ok values → 1 < values.length →
      ∀ (t a d n : Nat),
      syncSheetPOST hash phone env st0 = (.success t a d n, st1) →
      (existingHashes (selectChunks st1 phone "google_sheet")).Nodup) ∧
    (∀ (E : Type) (hash : String → String) (phone : String)
        (text : String) (chunks : List String) (env : DocEnv E) (st0 st1 : Store E),
      (currentHashes (chunks.map fun c => RowData.mk (hash c) c)).Nodup →
      (existingHashes (selectChunks st0 phone "google_doc")).Nodup →
      env.fetch = .ok text → text ≠ "" →
      chunkText text 1600 200 = .ok chunks →
      ∀ (t a d u : Nat) (msg : String),
      syncDocPOST hash phone env st0 = (.success t a d u msg, st1) →
      (existingHashes (selectChunks st1 phone "google_doc")).Nodup) :=
  ⟨fun _ hash phone values env st0 st1 hcur hex hf hlen t a d n h1 =>
    hash_unique_preserved_sheet hash phone values env st0 st1 hcur hex hf hlen t a d n h1,
   fun _ hash phone text chunks env st0 st1 hcur hex hf hne hck t a d u msg h1 =>
    hash_unique_preserved_doc hash phone text chunks env st0 st1 hcur hex hf hne hck
      t a d u msg h1⟩

/-- Witness for C3 (amended), on the concrete first-sync runs of both
routes. -/
theorem hash_unique_preserved_witness :
    (existingHashes (selectChunks exSt1 "p" "google_sheet")).Nodup ∧
    (existingHashes (selectChunks exDocSt1 "p" "google_doc")).Nodup :=
  ⟨hash_unique_preserved.1 Nat exHash "p" [["h"], ["a"]] exEnv1 exSt0 exSt1
     (by decide) (by decide) rfl (by decide) 1 1 0 5 (by decide),
   hash_unique_preserved.2 Nat exHash "p" "hello" ["hello"] exDocEnv1 exSt0 exDocSt1
     (by decide) (by decide) rfl (by decide) rfl 1 1 0 0
     "Google Doc synced successfully" (by decide)⟩

/-! ## Error surfacing (C5) -/

theorem sheetDeletePhase_ok_deleteOk {dok : Bool} {tDel : List (StoredChunk E)}
    {st st' : Store E} (h : sheetDeletePhase dok tDel st = .ok st') :
    tDel ≠ [] → dok = true := by
  intro hne
  rw [sheetDeletePhase, if_neg (by simpa [List.isEmpty_iff] using hne)] at h
  by_cases hok : dok
  · exact hok
  · rw [if_neg hok] at h
    cases h

/-- Error surfacing on the sheet route (helper for the combined theorem). -/
theorem syncSheet_error_surfacing_aux (hash : String → String) (phone : String)
    (env : SheetEnv E) (st : Store E) :
    (∀ code, env.fetch = .error code →
      ∃ s m, syncSheetPOST hash phone env st = (.failure s m, st) ∧ m ≠ "") ∧
    (∀ (values : List (List String)) (t a d n : Nat) (st' : Store E),
      env.fetch = .ok values → 1 < values.length →
      syncSheetPOST hash phone env st = (.success t a d n, st') →
      env.selectOk = true ∧
      (toDelete (rowDataOf hash values) (selectChunks st phone "google_sheet") ≠ [] →
        env.deleteOk = true) ∧
      (∀ r ∈ toUpdate (rowDataOf hash values) (selectChunks st phone "google_sheet"),
        ∃ e, env.embed r.content = .ok e) ∧
      (∀ j, j < (toUpdate (rowDataOf hash values)
          (selectChunks st phone "google_sheet")).length → env.updateOk j = true) ∧
      (∀ r ∈ toAdd (rowDataOf hash values) (selectChunks st phone "google_sheet"),
        ∃ e, env.embed r.content = .ok e) ∧
      (∀ j, j < (sheetBatches (toAdd (rowDataOf hash values)
          (selectChunks st phone "google_sheet"))).length → env.insertOk j = true)) := by
  constructor
  · intro code hcode
    rw [syncSheetPOST, hcode]
    dsimp only
    by_cases h3 : code == 403
    · rw [if_pos h3]
      exact ⟨403,
        "Google Sheet access denied. Please share the sheet with the service account email.",
        rfl, by decide⟩
    · rw [if_neg h3]
      by_cases h4 : code == 404
      · rw [if_pos h4]
        exact ⟨404, "Google Sheet not found. Please check the sheet URL.", rfl, by decide⟩
      · rw [if_neg h4]
        exact ⟨500, "Failed to read Google Sheet", rfl, by decide⟩
  · intro values t a d n st' hf hlen h
    rcases syncSheetPOST_success_inv hf hlen h with ⟨hsel, st3, happ, _⟩
    refine ⟨hsel, ?_⟩
    rw [applySheet] at happ
    cases hdel : sheetDeletePhase env.deleteOk
        (toDelete (rowDataOf hash values) (selectChunks st phone "google_sheet")) st with
    | error e => simp [hdel] at happ
    | ok stD =>
      simp only [hdel] at happ
      refine ⟨sheetDeletePhase_ok_deleteOk hdel, ?_⟩
      cases hupd : sheetUpdateGo env.embed env.updateOk
          (selectChunks st phone "google_sheet")
          (toUpdate (rowDataOf hash values) (selectChunks st phone "google_sheet")) 0 stD with
      | error e => simp [hupd] at happ
      | ok stU =>
        simp only [hupd] at happ
        rcases sheetUpdateGo_ok_calls _ 0 stD stU hupd with ⟨hue, huk⟩
        rcases sheetAddGo_ok_calls _ 0 stU st3 happ with ⟨hae, hak⟩
        refine ⟨hue, fun j hj => by simpa using huk j hj, ?_, fun j hj => by simpa using hak j hj⟩
        intro r hr
        have hrflat : r ∈ (sheetBatches (toAdd (rowDataOf hash values)
            (selectChunks st phone "google_sheet"))).flatten := by
          rw [sheetBatches_join]
          exact hr
        rcases List.mem_flatten.1 hrflat with ⟨b, hb, hrb⟩
        exact hae b hb r hrb

/-- Error surfacing on the doc route (helper for the combined theorem).  The
doc route's update step calls `updateOk` exactly once per `toUpdate` member:
every `toUpdate` member has a hash-map match (`mem_toUpdate_lookup`), so the
skip-on-missing-lookup branch is never taken. -/
theorem syncDoc_error_surfacing_aux (hash : String → String) (phone : String)
    (env : DocEnv E) (st : Store E) :
    (∀ code, env.fetch = .error code →
      ∃ s m, syncDocPOST hash phone env st = (.failure s m, st) ∧ m ≠ "") ∧
    (∀ (text : String) (chunks : List String) (t a d u : Nat) (msg : String) (st' : Store E),
      env.fetch = .ok text → text ≠ "" → chunkText text 1600 200 = .ok chunks →
      syncDocPOST hash phone env st = (.success t a d u msg, st') →
      env.selectOk = true ∧
      (toDelete (chunks.map fun c => RowData.mk (hash c) c)
          (selectChunks st phone "google_doc") ≠ [] → env.deleteOk = true) ∧
      (∀ r ∈ toAdd (chunks.map fun c => RowData.mk (hash c) c)
          (selectChunks st phone "google_doc"), ∃ e, env.embed r.content = .ok e) ∧
      (∀ j, j < (toAdd (chunks.map fun c => RowData.mk (hash c) c)
          (selectChunks st phone "google_doc")).length → env.insertOk j = true) ∧
      (∀ r ∈ toUpdate (chunks.map fun c => RowData.mk (hash c) c)
          (selectChunks st phone "google_doc"), ∃ e, env.embed r.content = .ok e) ∧
      (∀ j, j < (toUpdate (chunks.map fun c => RowData.mk (hash c) c)
          (selectChunks st phone "google_doc")).length → env.updateOk j = true)) := by
  constructor
  · intro code hcode
    rw [syncDocPOST, hcode]
    dsimp only
    by_cases h3 : code == 403
    · rw [if_pos h3]
      exact ⟨403,
        "Google Doc access denied. Please share the doc with the service account email.",
        rfl, by decide⟩
    · rw [if_neg h3]
      by_cases h4 : code == 404
      · rw [if_pos h4]
        exact ⟨404, "Google Doc not found. Please check the doc URL.", rfl, by decide⟩
      · rw [if_neg h4]
        exact ⟨500, "Failed to read Google Doc", rfl, by decide⟩
  · intro text chunks t a d u msg st' hf hne hck h
    rcases syncDocPOST_success_inv hf hne hck h with ⟨hsel, st3, updated, happ, _⟩
    refine ⟨hsel, ?_⟩
    rw [applyDoc] at happ
    cases hdel : sheetDeletePhase env.deleteOk
        (toDelete (chunks.map fun c => RowData.mk (hash c) c)
          (selectChunks st phone "google_doc")) st with
    | error e => simp [hdel] at happ
    | ok stD =>
      simp only [hdel] at happ
      refine ⟨sheetDeletePhase_ok_deleteOk hdel, ?_⟩
      cases hadd : docAddGo env.embed env.insertOk phone
          (toAdd (chunks.map fun c => RowData.mk (hash c) c)
            (selectChunks st phone "google_doc")) 0 stD with
      | error e => simp [hadd] at happ
      | ok st2 =>
        simp only [hadd] at happ
        rcases docAddGo_ok_calls _ 0 stD st2 hadd with ⟨hae, hak⟩
        have hlook : ∀ r ∈ toUpdate (chunks.map fun c => RowData.mk (hash c) c)
            (selectChunks st phone "google_doc"),
            (mapGetLast (selectChunks st phone "google_doc") r.hash).isSome := by
          intro r hr
          rcases mem_toUpdate_lookup hr with ⟨c, hc, _⟩
          rw [hc]
          rfl
        rcases docUpdateGo_ok_calls _ 0 st2 0 st3 updated hlook happ with ⟨hue, huk⟩
        exact ⟨hae, fun j hj => by simpa using hak j hj, hue,
          fun j hj => by simpa using huk j hj⟩

/-- C5 (amended).  Error surfacing, on both sync routes: a source-fetch
failure yields a failed response with a non-empty message and an untouched
store, and a success response implies that the chunk select, the chunk
delete (when needed), every embedding request and every chunk update/insert
performed by the run succeeded — so no source-fetch, embedding, or
chunk-persistence failure is swallowed.  (A failure of the final
sync-metadata write, by contrast, is logged and swallowed on both routes:
see the counterexample.) -/
theorem sync_error_surfacing :
    (∀ (E : Type) (hash : String → String) (phone : String)
        (env : SheetEnv E) (st : Store E),
      (∀ code, env.fetch = .error code →
        ∃ s m, syncSheetPOST hash phone env st = (.failure s m, st) ∧ m ≠ "") ∧
      (∀ (values : List (List String)) (t a d n : Nat) (st' : Store E),
        env.fetch = .ok values → 1 < values.length →
        syncSheetPOST hash phone env st = (.success t a d n, st') →
        env.selectOk = true ∧
        (toDelete (rowDataOf hash values) (selectChunks st phone "google_sheet") ≠ [] →
          env.deleteOk = true) ∧
        (∀ r ∈ toUpdate (rowDataOf hash values) (selectChunks st phone "google_sheet"),
          ∃ e, env.embed r.content = .ok e) ∧
        (∀ j, j < (toUpdate (rowDataOf hash values)
            (selectChunks st phone "google_sheet")).length → env.updateOk j = true) ∧
        (∀ r ∈ toAdd (rowDataOf hash values) (selectChunks st phone "google_sheet"),
          ∃ e, env.embed r.content = .ok e) ∧
        (∀ j, j < (sheetBatches (toAdd (rowDataOf hash values)
            (selectChunks st phone "google_sheet"))).length → env.insertOk j = true))) ∧
    (∀ (E : Type) (hash : String → String) (phone : String)
        (env : DocEnv E) (st : Store E),
      (∀ code, env.fetch = .error code →
        ∃ s m, syncDocPOST hash phone env st = (.failure s m, st) ∧ m ≠ "") ∧
      (∀ (text : String) (chunks : List String) (t a d u : Nat) (msg : String) (st' : Store E),
        env.fetch = .ok text → text ≠ "" → chunkText text 1600 200 = .ok chunks →
        syncDocPOST hash phone env st = (.success t a d u msg, st') →
        env.selectOk = true ∧
        (toDelete (chunks.map fun c => RowData.mk (hash c) c)
            (selectChunks st phone "google_doc") ≠ [] → env.deleteOk = true) ∧
        (∀ r ∈ toAdd (chunks.map fun c => RowData.mk (hash c) c)
            (selectChunks st phone "google_doc"), ∃ e, env.embed r.content = .ok e) ∧
        (∀ j, j < (toAdd (chunks.map fun c => RowData.mk (hash c) c)
            (selectChunks st phone "google_doc")).length → env.insertOk j = true) ∧
        (∀ r ∈ toUpdate (chunks.map fun c => RowData.mk (hash c) c)
            (selectChunks st phone "google_doc"), ∃ e, env.embed r.content = .ok e) ∧
        (∀ j, j < (toUpdate (chunks.map fun c => RowData.mk (hash c) c)
            (selectChunks st phone "google_doc")).length → env.updateOk j = true))) :=
  ⟨fun _ hash phone env st => syncSheet_error_surfacing_aux hash phone env st,
   fun _ hash phone env st => syncDoc_error_surfacing_aux hash phone env st⟩

/-- Witness for C5 (amended): a 403 fetch failure is surfaced on each route,
and a successful run implies its select succeeded. -/
theorem sync_error_surfacing_witness :
    ((∃ s m, syncSheetPOST exHash "p" exEnvFetchFail exSt0 = (.failure s m, exSt0) ∧ m ≠ "") ∧
     exEnv1.selectOk = true) ∧
    ((∃ s m, syncDocPOST exHash "p" exDocEnvFetchFail exSt0 = (.failure s m, exSt0) ∧ m ≠ "") ∧
     exDocEnv1.selectOk = true) :=
  ⟨⟨(sync_error_surfacing.1 Nat exHash "p" exEnvFetchFail exSt0).1 403 rfl,
    ((sync_error_surfacing.1 Nat exHash "p" exEnv1 exSt0).2 [["h"], ["a"]] 1 1 0 5 exSt1 rfl
      (by decide) (by decide)).1⟩,
   ⟨(sync_error_surfacing.2 Nat exHash "p" exDocEnvFetchFail exSt0).1 403 rfl,
    ((sync_error_surfacing.2 Nat exHash "p" exDocEnv1 exSt0).2 "hello" ["hello"] 1 1 0 0
      "Google Doc synced successfully" exDocSt1 rfl (by decide) rfl (by decide)).1⟩⟩

/-- C5 counterexample: on each route, the sync-metadata write (a persistence
failure during the sync) fails, yet the handler still returns a success
response — the stored mapping keeps `last_synced_at = none` while the caller
is told the sync succeeded.  The claim that no persistence failure ever
yields a success response is therefore false as stated. -/
theorem metaFailure_counterexample :
    (exEnvMetaFail.metaOk = false ∧
     syncSheetPOST exHash "p" exEnvMetaFail exStMap =
       (.success 1 1 0 3, ⟨[⟨0, "p", "google_sheet", "a", 0, "a"⟩], [⟨"p", none, 0⟩], [], 1⟩)) ∧
    (exDocEnvMetaFail.metaOk = false ∧
     syncDocPOST exHash "p" exDocEnvMetaFail exDocStMap =
       (.success 1 1 0 0 "Google Doc synced successfully",
        ⟨[⟨0, "p", "google_doc", "hello", 0, "hello"⟩], [], [⟨"p", none, 0⟩], 1⟩)) :=
  ⟨⟨rfl, by decide⟩, ⟨rfl, by decide⟩⟩

/-! ## Non-atomic failure semantics (C6) -/

/-- Any error response of the sheet sync leaves both stored mapping tables
untouched. -/
theorem syncSheet_failure_mappings (hash : String → String) (phone : String)
    (env : SheetEnv E) (st : Store E) :
    ∀ res st', syncSheetPOST hash phone env st = (res, st') →
      ∀ s m, res = .failure s m →
        st'.sheetMappings = st.sheetMappings ∧ st'.docMappings = st.docMappings := by
  intro res st' hrun s m hres
  subst hres
  rw [syncSheetPOST] at hrun
  cases hf : env.fetch with
  | error code =>
    rw [hf] at hrun
    dsimp only at hrun
    by_cases h3 : code == 403
    · rw [if_pos h3] at hrun
      cases hrun
      exact ⟨rfl, rfl⟩
    · rw [if_neg h3] at hrun
      by_cases h4 : code == 404
      · rw [if_pos h4] at hrun
        cases hrun
        exact ⟨rfl, rfl⟩
      · rw [if_neg h4] at hrun
        cases hrun
        exact ⟨rfl, rfl⟩
  | ok values =>
    rw [hf] at hrun
    dsimp only at hrun
    by_cases hlen : values.length ≤ 1
    · rw [if_pos hlen] at hrun
      simp at hrun
    · rw [if_neg hlen] at hrun
      by_cases hsel : env.selectOk
      · rw [if_pos hsel] at hrun
        cases happ : applySheet env phone (rowDataOf hash values)
            (selectChunks st phone "google_sheet") st with
        | error e =>
          rw [happ] at hrun
          dsimp only at hrun
          have hms := applySheet_stepStore env phone (rowDataOf hash values)
            (selectChunks st phone "google_sheet") st
          rw [happ] at hms
          cases hrun
          exact ⟨hms.1, hms.2⟩
        | ok st3 =>
          rw [happ] at hrun
          simp at hrun
      · rw [if_neg hsel] at hrun
        cases hrun
        exact ⟨rfl, rfl⟩

/-- A failing sheet apply phase surfaces its error verbatim. -/
theorem syncSheet_error_run (hash : String → String) (phone : String)
    {env : SheetEnv E} {st : Store E} {values : List (List String)}
    {e : Nat × String} {stF : Store E}
    (hf : env.fetch = .ok values) (hlen : 1 < values.length) (hsel : env.selectOk = true)
    (happ : applySheet env phone (rowDataOf hash values)
      (selectChunks st phone "google_sheet") st = .error (e, stF)) :
    syncSheetPOST hash phone env st = (.failure e.1 e.2, stF) := by
  rw [syncSheetPOST, hf]
  dsimp only
  rw [if_neg (by omega), if_pos hsel, happ]

/-- A failing doc apply phase surfaces its error verbatim. -/
theorem syncDoc_error_run (hash : String → String) (phone : String)
    {env : DocEnv E} {st : Store E} {text : String} {chunks : List String}
    {e : Nat × String} {stF : Store E}
    (hf : env.fetch = .ok text) (hne : text ≠ "")
    (hck : chunkText text 1600 200 = .ok chunks) (hsel : env.selectOk = true)
    (happ : applyDoc env phone (chunks.map fun c => RowData.mk (hash c) c)
      (selectChunks st phone "google_doc") st = .error (e, stF)) :
    syncDocPOST hash phone env st = (.failure e.1 e.2, stF) := by
  rw [syncDocPOST, hf]
  dsimp only
  rw [if_neg (by simp [hne])]
  simp only [hck]
  rw [if_pos hsel, happ]

/-- No rollback on the sheet route: whatever step of the apply phase fails
(delete, any update, or any add batch), the error store is exactly a state
reached by successfully running a prefix of the work — nothing is undone. -/
theorem applySheet_error_noRollback {env : SheetEnv E} {phone : String}
    {rows : List RowData} {existing : List (StoredChunk E)} {st : Store E}
    {e : Nat × String} {stF : Store E}
    (happ : applySheet env phone rows existing st = .error (e, stF)) :
    (sheetDeletePhase env.deleteOk (toDelete rows existing) st = .error (e, stF) ∧
      stF = st) ∨
    (sheetDeletePhase env.deleteOk (toDelete rows existing) st =
        .ok (sheetDeleteApply st (toDelete rows existing)) ∧
      ((∃ j, j ≤ (toUpdate rows existing).length ∧
          sheetUpdateGo env.embed env.updateOk existing ((toUpdate rows existing).take j) 0
            (sheetDeleteApply st (toDelete rows existing)) = .ok stF) ∨
       (∃ stU, sheetUpdateGo env.embed env.updateOk existing (toUpdate rows existing) 0
            (sheetDeleteApply st (toDelete rows existing)) = .ok stU ∧
         ∃ j, j ≤ (sheetBatches (toAdd rows existing)).length ∧
           sheetAddGo env.embed env.insertOk phone
             ((sheetBatches (toAdd rows existing)).take j) 0 stU = .ok stF))) := by
  rw [applySheet] at happ
  cases hdel : sheetDeletePhase env.deleteOk (toDelete rows existing) st with
  | error ep =>
    simp only [hdel] at happ
    have hep : ep = (e, stF) := by injection happ
    subst hep
    left
    refine ⟨rfl, ?_⟩
    rw [sheetDeletePhase] at hdel
    by_cases hemp : (toDelete rows existing).isEmpty
    · rw [if_pos hemp] at hdel
      cases hdel
    · rw [if_neg hemp] at hdel
      by_cases hok : env.deleteOk
      · rw [if_pos hok] at hdel
        cases hdel
      · rw [if_neg hok] at hdel
        injection hdel with h1
        exact (congrArg Prod.snd h1).symm
  | ok stD =>
    simp only [hdel] at happ
    have hstD := sheetDeletePhase_ok hdel
    subst hstD
    right
    refine ⟨rfl, ?_⟩
    cases hupd : sheetUpdateGo env.embed env.updateOk existing (toUpdate rows existing) 0
        (sheetDeleteApply st (toDelete rows existing)) with
    | error ep2 =>
      simp only [hupd] at happ
      have hep : ep2 = (e, stF) := by injection happ
      subst hep
      left
      exact sheetUpdateGo_error_prefix _ 0 _ hupd
    | ok stU =>
      simp only [hupd] at happ
      right
      exact ⟨stU, rfl, sheetAddGo_error_prefix _ 0 _ happ⟩

/-- No rollback on the doc route: whatever step of the apply phase fails
(delete, any per-chunk insert, or any update), the error store is exactly a
state reached by successfully running a prefix of the work. -/
theorem applyDoc_error_noRollback {env : DocEnv E} {phone : String}
    {rows : List RowData} {existing : List (StoredChunk E)} {st : Store E}
    {e : Nat × String} {stF : Store E}
    (happ : applyDoc env phone rows existing st = .error (e, stF)) :
    (sheetDeletePhase env.deleteOk (toDelete rows existing) st = .error (e, stF) ∧
      stF = st) ∨
    (sheetDeletePhase env.deleteOk (toDelete rows existing) st =
        .ok (sheetDeleteApply st (toDelete rows existing)) ∧
      ((∃ j, j ≤ (toAdd rows existing).length ∧
          docAddGo env.embed env.insertOk phone ((toAdd rows existing).take j) 0
            (sheetDeleteApply st (toDelete rows existing)) = .ok stF) ∨
       (∃ st2, docAddGo env.embed env.insertOk phone (toAdd rows existing) 0
            (sheetDeleteApply st (toDelete rows existing)) = .ok st2 ∧
         ∃ j u', j ≤ (toUpdate rows existing).length ∧
           docUpdateGo env.embed env.updateOk existing ((toUpdate rows existing).take j) 0
             (st2, 0) = .ok (stF, u')))) := by
  rw [applyDoc] at happ
  cases hdel : sheetDeletePhase env.deleteOk (toDelete rows existing) st with
  | error ep =>
    simp only [hdel] at happ
    have hep : ep = (e, stF) := by injection happ
    subst hep
    left
    refine ⟨rfl, ?_⟩
    rw [sheetDeletePhase] at hdel
    by_cases hemp : (toDelete rows existing).isEmpty
    · rw [if_pos hemp] at hdel
      cases hdel
    · rw [if_neg hemp] at hdel
      by_cases hok : env.deleteOk
      · rw [if_pos hok] at hdel
        cases hdel
      · rw [if_neg hok] at hdel
        injection hdel with h1
        exact (congrArg Prod.snd h1).symm
  | ok stD =>
    simp only [hdel] at happ
    have hstD := sheetDeletePhase_ok hdel
    subst hstD
    right
    refine ⟨rfl, ?_⟩
    cases hadd : docAddGo env.embed env.insertOk phone (toAdd rows existing) 0
        (sheetDeleteApply st (toDelete rows existing)) with
    | error ep2 =>
      simp only [hadd] at happ
      have hep : ep2 = (e, stF) := by injection happ
      subst hep
      left
      exact docAddGo_error_prefix _ 0 _ hadd
    | ok st2 =>
      simp only [hadd] at happ
      right
      exact ⟨st2, rfl, docUpdateGo_error_prefix _ 0 _ 0 happ⟩

/-- C6.  Non-atomic failure, on both sync routes: (i)/(iii) whenever a sync
returns an error, the stored mappings — `last_synced_at` and the stored
count — are untouched; (ii)/(iv) whenever the apply phase fails — at the
delete step, at any embedding call, or at any chunk update/insert — the
handler surfaces the error with exactly the partial store: a state reached
by successfully running a prefix of the work, with everything before the
failing call still applied and nothing rolled back. -/
theorem sync_nonatomic :
    (∀ (E : Type) (hash : String → String) (phone : String) (env : SheetEnv E)
        (st : Store E) (res : SheetSyncResult) (st' : Store E),
      syncSheetPOST hash phone env st = (res, st') →
      ∀ s m, res = .failure s m →
        st'.sheetMappings = st.sheetMappings ∧ st'.docMappings = st.docMappings) ∧
    (∀ (E : Type) (hash : String → String) (phone : String) (env : SheetEnv E)
        (st : Store E) (values : List (List String)) (e : Nat × String) (stF : Store E),
      env.fetch = .ok values → 1 < values.length → env.selectOk = true →
      applySheet env phone (rowDataOf hash values)
        (selectChunks st phone "google_sheet") st = .error (e, stF) →
      syncSheetPOST hash phone env st = (.failure e.1 e.2, stF) ∧
      ((sheetDeletePhase env.deleteOk (toDelete (rowDataOf hash values)
          (selectChunks st phone "google_sheet")) st = .error (e, stF) ∧ stF = st) ∨
       (sheetDeletePhase env.deleteOk (toDelete (rowDataOf hash values)
            (selectChunks st phone "google_sheet")) st =
          .ok (sheetDeleteApply st (toDelete (rowDataOf hash values)
            (selectChunks st phone "google_sheet"))) ∧
        ((∃ j, j ≤ (toUpdate (rowDataOf hash values)
              (selectChunks st phone "google_sheet")).length ∧
            sheetUpdateGo env.embed env.updateOk (selectChunks st phone "google_sheet")
              ((toUpdate (rowDataOf hash values)
                (selectChunks st phone "google_sheet")).take j) 0
              (sheetDeleteApply st (toDelete (rowDataOf hash values)
                (selectChunks st phone "google_sheet"))) = .ok stF) ∨
         (∃ stU, sheetUpdateGo env.embed env.updateOk (selectChunks st phone "google_sheet")
              (toUpdate (rowDataOf hash values) (selectChunks st phone "google_sheet")) 0
              (sheetDeleteApply st (toDelete (rowDataOf hash values)
                (selectChunks st phone "google_sheet"))) = .ok stU ∧
           ∃ j, j ≤ (sheetBatches (toAdd (rowDataOf hash values)
              (selectChunks st phone "google_sheet"))).length ∧
             sheetAddGo env.embed env.insertOk phone
               ((sheetBatches (toAdd (rowDataOf hash values)
                 (selectChunks st phone "google_sheet"))).take j) 0 stU = .ok stF))))) ∧
    (∀ (E : Type) (hash : String → String) (phone : String) (env : DocEnv E)
        (st : Store E) (res : DocSyncResult) (st' : Store E),
      syncDocPOST hash phone env st = (res, st') →
      ∀ s m, res = .failure s m →
        st'.sheetMappings = st.sheetMappings ∧ st'.docMappings = st.docMappings) ∧
    (∀ (E : Type) (hash : String → String) (phone : String) (env : DocEnv E)
        (st : Store E) (text : String) (chunks : List String)
        (e : Nat × String) (stF : Store E),
      env.fetch = .ok text → text ≠ "" → chunkText text 1600 200 = .ok chunks →
      env.selectOk = true →
      applyDoc env phone (chunks.map fun c => RowData.mk (hash c) c)
        (selectChunks st phone "google_doc") st = .error (e, stF) →
      syncDocPOST hash phone env st = (.failure e.1 e.2, stF) ∧
      ((sheetDeletePhase env.deleteOk (toDelete (chunks.map fun c => RowData.mk (hash c) c)
          (selectChunks st phone "google_doc")) st = .error (e, stF) ∧ stF = st) ∨
       (sheetDeletePhase env.deleteOk (toDelete (chunks.map fun c => RowData.mk (hash c) c)
            (selectChunks st phone "google_doc")) st =
          .ok (sheetDeleteApply st (toDelete (chunks.map fun c => RowData.mk (hash c) c)
            (selectChunks st phone "google_doc"))) ∧
        ((∃ j, j ≤ (toAdd (chunks.map fun c => RowData.mk (hash c) c)
              (selectChunks st phone "google_doc")).length ∧
            docAddGo env.embed env.insertOk phone
              ((toAdd (chunks.map fun c => RowData.mk (hash c) c)
                (selectChunks st phone "google_doc")).take j) 0
              (sheetDeleteApply st (toDelete (chunks.map fun c => RowData.mk (hash c) c)
                (selectChunks st phone "google_doc"))) = .ok stF) ∨
         (∃ st2, docAddGo env.embed env.insertOk phone
              (toAdd (chunks.map fun c => RowData.mk (hash c) c)
                (selectChunks st phone "google_doc")) 0
              (sheetDeleteApply st (toDelete (chunks.map fun c => RowData.mk (hash c) c)
                (selectChunks st phone "google_doc"))) = .ok st2 ∧
           ∃ j u', j ≤ (toUpdate (chunks.map fun c => RowData.mk (hash c) c)
              (selectChunks st phone "google_doc")).length ∧
             docUpdateGo env.embed env.updateOk (selectChunks st phone "google_doc")
               ((toUpdate (chunks.map fun c => RowData.mk (hash c) c)
                 (selectChunks st phone "google_doc")).take j) 0
               (st2, 0) = .ok (stF, u')))))) :=
  ⟨fun _ hash phone env st res st' hrun s m hres =>
    syncSheet_failure_mappings hash phone env st res st' hrun s m hres,
   fun _ hash phone env st values e stF hf hlen hsel happ =>
    ⟨syncSheet_error_run hash phone hf hlen hsel happ, applySheet_error_noRollback happ⟩,
   fun _ hash phone env st res st' hrun s m hres =>
    syncDoc_failure_mappings hash phone env st res st' hrun s m hres,
   fun _ hash phone env st text chunks e stF hf hne hck hsel happ =>
    ⟨syncDoc_error_run hash phone hf hne hck hsel happ, applyDoc_error_noRollback happ⟩⟩

/-- Witness for C6: on each route, a fetch failure leaves the mappings
untouched, and a failing first insert yields a 500 whose store is exactly
the pre-insert state. -/
theorem sync_nonatomic_witness :
    (exSt0.sheetMappings = exSt0.sheetMappings ∧ exSt0.docMappings = exSt0.docMappings) ∧
    (syncSheetPOST exHash "p" exEnvInsFail exSt0 =
      (.failure 500 "Failed to save chunks", exSt0)) ∧
    (exSt0.sheetMappings = exSt0.sheetMappings ∧ exSt0.docMappings = exSt0.docMappings) ∧
    (syncDocPOST exHash "p" exDocEnvInsFail exSt0 =
      (.failure 500 "Failed to insert new chunk", exSt0)) :=
  ⟨sync_nonatomic.1 Nat exHash "p" exEnvFetchFail exSt0
     (.failure 403
       "Google Sheet access denied. Please share the sheet with the service account email.")
     exSt0 (by decide) 403
     "Google Sheet access denied. Please share the sheet with the service account email." rfl,
   (sync_nonatomic.2.1 Nat exHash "p" exEnvInsFail exSt0 [["h"], ["a"]]
     (500, "Failed to save chunks") exSt0 rfl (by decide) rfl rfl).1,
   sync_nonatomic.2.2.1 Nat exHash "p" exDocEnvFetchFail exSt0
     (.failure 403
       "Google Doc access denied. Please share the doc with the service account email.")
     exSt0 (by decide) 403
     "Google Doc access denied. Please share the doc with the service account email." rfl,
   (sync_nonatomic.2.2.2 Nat exHash "p" exDocEnvInsFail exSt0 "hello" ["hello"]
     (500, "Failed to insert new chunk") exSt0 rfl (by decide) rfl rfl rfl).1⟩

/-! ## Deletions happen before any embedding (C10) -/

/-- After the delete step, every `toDelete` chunk id is gone from the chunk
table. -/
theorem toDelete_ids_gone (phone source : String) (rows : List RowData) (st : Store E) :
    ∀ c ∈ toDelete rows (selectChunks st phone source),
      ¬ c.id ∈ (sheetDeleteApply st (toDelete rows
        (selectChunks st phone source))).chunks.map (·.id) := by
  intro c hc hmem
  rw [sheetDeleteApply_chunks] at hmem
  rcases List.mem_map.1 hmem with ⟨c', hc', hcid⟩
  rcases List.mem_filter.1 hc' with ⟨_, hp⟩
  have hcin : c.id ∈ (toDelete rows
      (selectChunks st phone source)).map (·.id) := List.mem_map_of_mem _ hc
  rw [← hcid] at hcin
  have hnot : ¬ c'.id ∈ (toDelete rows
      (selectChunks st phone source)).map (·.id) := by simpa using hp
  exact hnot hcin

/-- After the delete step, no `toAdd` hash occurs in the partition. -/
theorem toAdd_hashes_absent (phone source : String) (rows : List RowData) (st : Store E) :
    ∀ r ∈ toAdd rows (selectChunks st phone source),
      ¬ r.hash ∈ existingHashes (selectChunks (sheetDeleteApply st
        (toDelete rows (selectChunks st phone source))) phone source) := by
  intro r hr hmem
  rcases List.mem_map.1 hmem with ⟨c, hc, hch⟩
  rw [selectChunks, sheetDeleteApply_chunks] at hc
  rcases List.mem_filter.1 hc with ⟨hc1, hp⟩
  rcases List.mem_filter.1 hc1 with ⟨hc2, _⟩
  exact (mem_toAdd.1 hr).2 (hch ▸ List.mem_map_of_mem _
    (List.mem_filter.2 ⟨hc2, hp⟩))

/-- Deletions-before-embedding on the sheet route (helper for the combined
theorem). -/
theorem deletions_first_sheet (hash : String → String) (phone : String)
    (env : SheetEnv E) (st : Store E) (values : List (List String))
    (hf : env.fetch = .ok values) (hlen : 1 < values.length) (hsel : env.selectOk = true)
    (hdel : env.deleteOk = true)
    (hembed : ∀ s', ∃ m, env.embed s' = .error m)
    (hneed : toUpdate (rowDataOf hash values) (selectChunks st phone "google_sheet") ≠ [] ∨
      toAdd (rowDataOf hash values) (selectChunks st phone "google_sheet") ≠ []) :
    ∃ s m, syncSheetPOST hash phone env st =
        (.failure s m, sheetDeleteApply st (toDelete (rowDataOf hash values)
          (selectChunks st phone "google_sheet"))) ∧
      (∀ c ∈ toDelete (rowDataOf hash values) (selectChunks st phone "google_sheet"),
        ¬ c.id ∈ (sheetDeleteApply st (toDelete (rowDataOf hash values)
          (selectChunks st phone "google_sheet"))).chunks.map (·.id)) ∧
      (∀ r ∈ toAdd (rowDataOf hash values) (selectChunks st phone "google_sheet"),
        ¬ r.hash ∈ existingHashes (selectChunks (sheetDeleteApply st
          (toDelete (rowDataOf hash values) (selectChunks st phone "google_sheet")))
          phone "google_sheet")) := by
  have hdelphase := sheetDeletePhase_ok_of env.deleteOk
    (toDelete (rowDataOf hash values) (selectChunks st phone "google_sheet")) st hdel
  cases htU : toUpdate (rowDataOf hash values) (selectChunks st phone "google_sheet") with
  | cons r0 rest =>
    rcases hembed r0.content with ⟨m0, hm0⟩
    have happ : applySheet env phone (rowDataOf hash values)
        (selectChunks st phone "google_sheet") st =
        .error ((500, "Failed to update chunks"),
          sheetDeleteApply st (toDelete (rowDataOf hash values)
            (selectChunks st phone "google_sheet"))) := by
      rw [applySheet, hdelphase]
      dsimp only
      rw [htU, sheetUpdateGo, hm0]
    exact ⟨500, "Failed to update chunks",
      syncSheet_error_run hash phone hf hlen hsel happ,
      toDelete_ids_gone phone "google_sheet" (rowDataOf hash values) st,
      toAdd_hashes_absent phone "google_sheet" (rowDataOf hash values) st⟩
  | nil =>
    cases htA : toAdd (rowDataOf hash values) (selectChunks st phone "google_sheet") with
    | nil =>
      rcases hneed with hneed | hneed
      · exact absurd htU hneed
      · exact absurd htA hneed
    | cons r0 t =>
      rcases hembed r0.content with ⟨m0, hm0⟩
      have happ : applySheet env phone (rowDataOf hash values)
          (selectChunks st phone "google_sheet") st =
          .error ((500, "Failed to add new chunks"),
            sheetDeleteApply st (toDelete (rowDataOf hash values)
              (selectChunks st phone "google_sheet"))) := by
        rw [applySheet, hdelphase]
        dsimp only
        rw [htU, sheetUpdateGo_nil]
        dsimp only
        rw [htA]
        have hbatch : sheetBatches (r0 :: t) =
            (r0 :: t.take 49) :: batchesGo t.length ((r0 :: t).drop 50) := by
          rw [sheetBatches]
          show batchesGo (t.length + 1) (r0 :: t) = _
          rw [batchesGo, if_neg (by simp)]
          exact rfl
        rw [hbatch, sheetAddGo, embedAll_error_of_head _ hm0]
      exact ⟨500, "Failed to add new chunks",
        syncSheet_error_run hash phone hf hlen hsel happ,
        toDelete_ids_gone phone "google_sheet" (rowDataOf hash values) st,
        htA ▸ toAdd_hashes_absent phone "google_sheet" (rowDataOf hash values) st⟩

/-- Deletions-before-embedding on the doc route (helper for the combined
theorem): the doc route's add step embeds each chunk before inserting it, and
its update step embeds **before** looking the chunk up, so an all-failing
embedder stops the sync right after the delete step. -/
theorem deletions_first_doc (hash : String → String) (phone : String)
    (env : DocEnv E) (st : Store E) (text : String) (chunks : List String)
    (hf : env.fetch = .ok text) (hne : text ≠ "")
    (hck : chunkText text 1600 200 = .ok chunks)
    (hsel : env.selectOk = true) (hdel : env.deleteOk = true)
    (hembed : ∀ s', ∃ m, env.embed s' = .error m)
    (hneed : toAdd (chunks.map fun c => RowData.mk (hash c) c)
        (selectChunks st phone "google_doc") ≠ [] ∨
      toUpdate (chunks.map fun c => RowData.mk (hash c) c)
        (selectChunks st phone "google_doc") ≠ []) :
    ∃ s m, syncDocPOST hash phone env st =
        (.failure s m, sheetDeleteApply st
          (toDelete (chunks.map fun c => RowData.mk (hash c) c)
            (selectChunks st phone "google_doc"))) ∧
      (∀ c ∈ toDelete (chunks.map fun c => RowData.mk (hash c) c)
          (selectChunks st phone "google_doc"),
        ¬ c.id ∈ (sheetDeleteApply st (toDelete (chunks.map fun c => RowData.mk (hash c) c)
          (selectChunks st phone "google_doc"))).chunks.map (·.id)) ∧
      (∀ r ∈ toAdd (chunks.map fun c => RowData.mk (hash c) c)
          (selectChunks st phone "google_doc"),
        ¬ r.hash ∈ existingHashes (selectChunks (sheetDeleteApply st
          (toDelete (chunks.map fun c => RowData.mk (hash c) c)
            (selectChunks st phone "google_doc"))) phone "google_doc")) := by
  have hdelphase := sheetDeletePhase_ok_of env.deleteOk
    (toDelete (chunks.map fun c => RowData.mk (hash c) c)
      (selectChunks st phone "google_doc")) st hdel
  cases htA : toAdd (chunks.map fun c => RowData.mk (hash c) c)
      (selectChunks st phone "google_doc") with
  | cons r0 t =>
    rcases hembed r0.content with ⟨m0, hm0⟩
    have happ : applyDoc env phone (chunks.map fun c => RowData.mk (hash c) c)
        (selectChunks st phone "google_doc") st =
        .error ((500, "Database error during addition"),
          sheetDeleteApply st (toDelete (chunks.map fun c => RowData.mk (hash c) c)
            (selectChunks st phone "google_doc"))) := by
      rw [applyDoc, hdelphase]
      dsimp only
      rw [htA, docAddGo, hm0]
    exact ⟨500, "Database error during addition",
      syncDoc_error_run hash phone hf hne hck hsel happ,
      toDelete_ids_gone phone "google_doc" (chunks.map fun c => RowData.mk (hash c) c) st,
      htA ▸ toAdd_hashes_absent phone "google_doc" (chunks.map fun c => RowData.mk (hash c) c) st⟩
  | nil =>
    cases htU : toUpdate (chunks.map fun c => RowData.mk (hash c) c)
        (selectChunks st phone "google_doc") with
    | nil =>
      rcases hneed with hneed | hneed
      · exact absurd htA hneed
      · exact absurd htU hneed
    | cons r0 rest =>
      rcases hembed r0.content with ⟨m0, hm0⟩
      have happ : applyDoc env phone (chunks.map fun c => RowData.mk (hash c) c)
          (selectChunks st phone "google_doc") st =
          .error ((500, "Database error during update"),
            sheetDeleteApply st (toDelete (chunks.map fun c => RowData.mk (hash c) c)
              (selectChunks st phone "google_doc"))) := by
        rw [applyDoc, hdelphase]
        dsimp only
        rw [htA, docAddGo_nil]
        dsimp only
        rw [htU, docUpdateGo, hm0]
      exact ⟨500, "Database error during update",
        syncDoc_error_run hash phone hf hne hck hsel happ,
        toDelete_ids_gone phone "google_doc" (chunks.map fun c => RowData.mk (hash c) c) st,
        htA ▸ toAdd_hashes_absent phone "google_doc" (chunks.map fun c => RowData.mk (hash c) c) st⟩

/-- C10.  All deletions are committed before any embedding request or insert,
within every sync's apply phase: even when every embedding call fails, the
sync returns an error whose store is exactly the post-deletion store — the
`toDelete` chunks are gone while none of the `toAdd` replacements were
persisted. -/
theorem deletions_first :
    (∀ (E : Type) (hash : String → String) (phone : String)
        (env : SheetEnv E) (st : Store E) (values : List (List String)),
      env.fetch = .ok values → 1 < values.length → env.selectOk = true →
      env.deleteOk = true →
      (∀ s', ∃ m, env.embed s' = .error m) →
      (toUpdate (rowDataOf hash values) (selectChunks st phone "google_sheet") ≠ [] ∨
        toAdd (rowDataOf hash values) (selectChunks st phone "google_sheet") ≠ []) →
      ∃ s m, syncSheetPOST hash phone env st =
          (.failure s m, sheetDeleteApply st (toDelete (rowDataOf hash values)
            (selectChunks st phone "google_sheet"))) ∧
        (∀ c ∈ toDelete (rowDataOf hash values) (selectChunks st phone "google_sheet"),
          ¬ c.id ∈ (sheetDeleteApply st (toDelete (rowDataOf hash values)
            (selectChunks st phone "google_sheet"))).chunks.map (·.id)) ∧
        (∀ r ∈ toAdd (rowDataOf hash values) (selectChunks st phone "google_sheet"),
          ¬ r.hash ∈ existingHashes (selectChunks (sheetDeleteApply st
            (toDelete (rowDataOf hash values) (selectChunks st phone "google_sheet")))
            phone "google_sheet"))) ∧
    (∀ (E : Type) (hash : String → String) (phone : String)
        (env : DocEnv E) (st : Store E) (text : String) (chunks : List String),
      env.fetch = .ok text → text ≠ "" → chunkText text 1600 200 = .ok chunks →
      env.selectOk = true → env.deleteOk = true →
      (∀ s', ∃ m, env.embed s' = .error m) →
      (toAdd (chunks.map fun c => RowData.mk (hash c) c)
          (selectChunks st phone "google_doc") ≠ [] ∨
        toUpdate (chunks.map fun c => RowData.mk (hash c) c)
          (selectChunks st phone "google_doc") ≠ []) →
      ∃ s m, syncDocPOST hash phone env st =
          (.failure s m, sheetDeleteApply st
            (toDelete (chunks.map fun c => RowData.mk (hash c) c)
              (selectChunks st phone "google_doc"))) ∧
        (∀ c ∈ toDelete (chunks.map fun c => RowData.mk (hash c) c)
            (selectChunks st phone "google_doc"),
          ¬ c.id ∈ (sheetDeleteApply st
            (toDelete (chunks.map fun c => RowData.mk (hash c) c)
              (selectChunks st phone "google_doc"))).chunks.map (·.id)) ∧
        (∀ r ∈ toAdd (chunks.map fun c => RowData.mk (hash c) c)
            (selectChunks st phone "google_doc"),
          ¬ r.hash ∈ existingHashes (selectChunks (sheetDeleteApply st
            (toDelete (chunks.map fun c => RowData.mk (hash c) c)
              (selectChunks st phone "google_doc"))) phone "google_doc"))) :=
  ⟨fun _ hash phone env st values hf hlen hsel hdel hembed hneed =>
    deletions_first_sheet hash phone env st values hf hlen hsel hdel hembed hneed,
   fun _ hash phone env st text chunks hf hne hck hsel hdel hembed hneed =>
    deletions_first_doc hash phone env st text chunks hf hne hck hsel hdel hembed hneed⟩

/-- Witness for C10, on both routes: a store holds one stale chunk, the
source now holds different content, every embedding call fails; the old
chunk is deleted, the new one is never added, and the sync errors. -/
theorem deletions_first_witness :
    (∃ s m, syncSheetPOST exHash "p" exEnvEmbFail exSt1 =
        (.failure s m, sheetDeleteApply exSt1 (toDelete (rowDataOf exHash [["h"], ["b"]])
          (selectChunks exSt1 "p" "google_sheet"))) ∧
      (∀ c ∈ toDelete (rowDataOf exHash [["h"], ["b"]])
          (selectChunks exSt1 "p" "google_sheet"),
        ¬ c.id ∈ (sheetDeleteApply exSt1 (toDelete (rowDataOf exHash [["h"], ["b"]])
          (selectChunks exSt1 "p" "google_sheet"))).chunks.map (·.id)) ∧
      (∀ r ∈ toAdd (rowDataOf exHash [["h"], ["b"]])
          (selectChunks exSt1 "p" "google_sheet"),
        ¬ r.hash ∈ existingHashes (selectChunks (sheetDeleteApply exSt1
          (toDelete (rowDataOf exHash [["h"], ["b"]])
            (selectChunks exSt1 "p" "google_sheet"))) "p" "google_sheet"))) ∧
    (∃ s m, syncDocPOST exHash "p" exDocEnvEmbFail exDocSt1 =
        (.failure s m, sheetDeleteApply exDocSt1
          (toDelete (["b"].map fun c => RowData.mk (exHash c) c)
            (selectChunks exDocSt1 "p" "google_doc"))) ∧
      (∀ c ∈ toDelete (["b"].map fun c => RowData.mk (exHash c) c)
          (selectChunks exDocSt1 "p" "google_doc"),
        ¬ c.id ∈ (sheetDeleteApply exDocSt1
          (toDelete (["b"].map fun c => RowData.mk (exHash c) c)
            (selectChunks exDocSt1 "p" "google_doc"))).chunks.map (·.id)) ∧
      (∀ r ∈ toAdd (["b"].map fun c => RowData.mk (exHash c) c)
          (selectChunks exDocSt1 "p" "google_doc"),
        ¬ r.hash ∈ existingHashes (selectChunks (sheetDeleteApply exDocSt1
          (toDelete (["b"].map fun c => RowData.mk (exHash c) c)
            (selectChunks exDocSt1 "p" "google_doc"))) "p" "google_doc"))) :=
  ⟨deletions_first.1 Nat exHash "p" exEnvEmbFail exSt1 [["h"], ["b"]] rfl (by decide)
     rfl rfl (fun _ => ⟨"rate limited", rfl⟩) (Or.inr (by decide)),
   deletions_first.2 Nat exHash "p" exDocEnvEmbFail exDocSt1 "b" ["b"] rfl (by decide)
     rfl rfl rfl (fun _ => ⟨"rate limited", rfl⟩) (Or.inl (by decide))⟩

end SheetSync

